import Mathlib

/-!
Verification of the DendroBLAST distance-matrix pipeline of
`orthofinder/scripts/orthologues.py`.

Shallow embedding conventions:
* `float64` values are modelled as rationals (`ℚ`) during the scatter phase and
  as reals (`ℝ`) from the log transform onwards; the IEEE infinities that the
  code relies on (`1./0. = inf`, `np.log(0) = -inf`, `-inf` comparisons in the
  serializer) are modelled explicitly by the three-constructor types `XQ`/`XR`
  (finite value, `+inf`, `-inf`).  `NaN` never arises in the modelled
  expressions (the only candidate, `0 * inf`, is unreachable because the finite
  factor is at least `9e99/2` whenever the other factor is infinite); the
  corresponding match arms carry junk values and are commented.
* scipy `lil_matrix` sparse matrices are modelled by `SpMat`: a dimension pair
  plus a total entry function, where the stored (structural) entries are
  exactly the nonzero ones — `GetBLAST6Scores` only stores actual hits.
* the `multiprocessing` worker pool writes disjoint cells (proved below), so
  the shared scatter matrix is modelled by folding the per-worker write lists
  sequentially over the zero-initialised matrix (`mp.Array('d', n)` zero-fills).
-/

namespace OF

/-- `Seq` from orthologues.py: a gene, a pair (species index, in-species
sequence index).  Only the numeric-pair constructor is relevant here. -/
structure Seq where
  iSp : ℕ
  iSeq : ℕ
deriving DecidableEq

/-- `"%d_%d" % (iSp, iSeq)` -/
def Seq.ToString (g : Seq) : String := toString g.iSp ++ "_" ++ toString g.iSeq

/-- A scipy `lil_matrix` of BLAST scores: dimensions plus entries; absent
(structural-zero) entries are the entries equal to `0`. -/
structure SpMat where
  rows : ℕ
  cols : ℕ
  entry : ℕ → ℕ → ℚ

/-- Extended rationals modelling `float64` values during the scatter phase:
a finite rational, `+inf` (`top`) or `-inf` (`bot`). -/
inductive XQ where
  | bot
  | fin (q : ℚ)
  | top
deriving DecidableEq

/-- IEEE multiplication on `XQ` (sign-correct infinity propagation).
`0 * ±inf`, which IEEE makes `NaN`, is unreachable in the modelled code and is
given the junk value `0`. -/
def xqMul : XQ → XQ → XQ
  | .fin a, .fin b => .fin (a * b)
  | .fin a, .top => if 0 < a then .top else if a < 0 then .bot else .fin 0
  | .fin a, .bot => if 0 < a then .bot else if a < 0 then .top else .fin 0
  | .top, .fin b => if 0 < b then .top else if b < 0 then .bot else .fin 0
  | .bot, .fin b => if 0 < b then .bot else if b < 0 then .top else .fin 0
  | .top, .top => .top
  | .bot, .bot => .top
  | .top, .bot => .bot
  | .bot, .top => .bot

/-- The nonzero (stored) values of row `k` of a `lil_matrix`, in column order:
`M.getrowview(kRow).data[0]`. -/
def rowData (M : SpMat) (k : ℕ) : List ℚ :=
  ((List.range M.cols).map (M.entry k)).filter (fun q => q ≠ 0)

/-- Row minimum as in `lil_minmax`: `9e99` for a row with no stored entry,
otherwise the minimum of the stored values. -/
def lilRowMin (M : SpMat) (k : ℕ) : ℚ :=
  match rowData M k with
  | [] => 9e99
  | h :: t => t.foldl min h

/-- Row maximum as in `lil_minmax`: `0` for a row with no stored entry,
otherwise the maximum of the stored values. -/
def lilRowMax (M : SpMat) (k : ℕ) : ℚ :=
  match rowData M k with
  | [] => 0
  | h :: t => t.foldl max h

/-- `lil_minmax(M)`: per-row `(mins, maxes)` with sentinels `9e99` / `0`. -/
def lil_minmax (M : SpMat) : (ℕ → ℚ) × (ℕ → ℚ) := (lilRowMin M, lilRowMax M)

/-- The list `Bs` fetched by `Worker_OGMatrices_ReadBLASTAndUpdateDistances`:
`[GetBLAST6Scores(... sp1, sp2 ...) for sp2 in speciesToUse]` — note that it
ranges over ALL of `speciesToUse`, including `sp2 = sp1`. -/
def workerBs (speciesToUse : List ℕ) (prov : ℕ → ℕ → SpMat) (sp1 : ℕ) : List SpMat :=
  speciesToUse.map (fun sp2 => prov sp1 sp2)

/-- `mins = ones*9e99; for B in Bs: mins = np.minimum(mins, lil_minmax(B).0)`. -/
def combinedMins (Bs : List SpMat) (g : ℕ) : ℚ :=
  Bs.foldl (fun acc B => min acc (lilRowMin B g)) (9e99 : ℚ)

/-- `maxes = zeros; for B in Bs: maxes = np.maximum(maxes, lil_minmax(B).1)`. -/
def combinedMaxes (Bs : List SpMat) (g : ℕ) : ℚ :=
  Bs.foldl (fun acc B => max acc (lilRowMax B g)) (0 : ℚ)

/-- `maxes_inv = 1./maxes` — IEEE float64 division, so `1./0. = +inf`. -/
def maxesInvOf (Bs : List SpMat) (g : ℕ) : XQ :=
  if combinedMaxes Bs g = 0 then .top else .fin (combinedMaxes Bs g)⁻¹

/-- One scatter-phase cell value:
`0.5*max(B[gi.iSeq, gj.iSeq], mins[gi.iSeq]) * maxes_inv[gi.iSeq]`. -/
def scatterVal (B : SpMat) (mins : ℕ → ℚ) (maxesInv : ℕ → XQ) (gi gj : Seq) : XQ :=
  xqMul (.fin ((0.5 : ℚ) * max (B.entry gi.iSeq gj.iSeq) (mins gi.iSeq))) (maxesInv gi.iSeq)

/-- `ogsPerSpecies` for one orthogroup:
`[[(g, i) for i, g in enumerate(og) if g.iSp == iSp] for iSp in speciesToUse]`. -/
def ogsPerSpeciesOf (speciesToUse : List ℕ) (og : List Seq) : List (List (Seq × ℕ)) :=
  speciesToUse.map (fun iSp =>
    ((og.enum.filter (fun p => p.2.iSp == iSp)).map (fun p => (p.2, p.1))))

/-- The (cell, value) writes performed for one orthogroup by the unit of work
for the species at position `iiSp` of `speciesToUse`:
`for jjSp, B in enumerate(Bs): for gi, i in og[iiSp]: for gj, j in og[jjSp]:
   m[i][j] = 0.5*max(B[gi.iSeq, gj.iSeq], mins[gi.iSeq]) * maxes_inv[gi.iSeq]`. -/
def workerWrites (speciesToUse : List ℕ) (prov : ℕ → ℕ → SpMat) (og : List Seq)
    (iiSp : ℕ) : List ((ℕ × ℕ) × XQ) :=
  let sp1 := speciesToUse.getD iiSp 0
  let Bs := workerBs speciesToUse prov sp1
  let mins := combinedMins Bs
  let maxesInv := maxesInvOf Bs
  let perSp := ogsPerSpeciesOf speciesToUse og
  (List.range speciesToUse.length).flatMap (fun jjSp =>
    (perSp.getD iiSp []).flatMap (fun gi =>
      (perSp.getD jjSp []).map (fun gj =>
        ((gi.2, gj.2), scatterVal (Bs.getD jjSp ⟨0, 0, fun _ _ => 0⟩) mins maxesInv gi.1 gj.1))))

/-- Cell `c` of the orthogroup matrix for `og` is written by the unit of work
at queue position `iiSp`. -/
def writesCell (speciesToUse : List ℕ) (prov : ℕ → ℕ → SpMat) (og : List Seq)
    (iiSp : ℕ) (c : ℕ × ℕ) : Prop :=
  ∃ w ∈ workerWrites speciesToUse prov og iiSp, w.1 = c

instance (speciesToUse : List ℕ) (prov : ℕ → ℕ → SpMat) (og : List Seq)
    (iiSp : ℕ) (c : ℕ × ℕ) : Decidable (writesCell speciesToUse prov og iiSp c) :=
  List.decidableBEx _ _

/-- All scatter writes of all units, sequentialised in queue order — legitimate
because the per-unit write sets are pairwise disjoint (theorem below). -/
def allWrites (speciesToUse : List ℕ) (prov : ℕ → ℕ → SpMat) (og : List Seq) :
    List ((ℕ × ℕ) × XQ) :=
  (List.range speciesToUse.length).flatMap (workerWrites speciesToUse prov og)

/-- The scatter-phase orthogroup matrix: the zero-initialised shared
`mp.Array` matrix after all units' writes. -/
def scatterMatrix (speciesToUse : List ℕ) (prov : ℕ → ℕ → SpMat) (og : List Seq) :
    ℕ → ℕ → XQ :=
  (allWrites speciesToUse prov og).foldl
    (fun m w => fun a b => if (a, b) = w.1 then w.2 else m a b)
    (fun _ _ => .fin 0)

/-! ### The log transform (`CompleteAndWriteOGMatrices`) -/

/-- Extended reals modelling `float64` values from the transform onwards. -/
inductive XR where
  | bot
  | fin (r : ℝ)
  | top

/-- Injection of scatter-phase values into transform-phase values. -/
def XQ.toXR : XQ → XR
  | .bot => .bot
  | .fin q => .fin (q : ℝ)
  | .top => .top

/-- IEEE addition on `XR`.  `inf + (-inf)`, which IEEE makes `NaN`, is
unreachable (scatter values are never `-inf`) and is given the junk value 0. -/
def xrAdd : XR → XR → XR
  | .fin a, .fin b => .fin (a + b)
  | .bot, .top => .fin 0
  | .top, .bot => .fin 0
  | .top, _ => .top
  | _, .top => .top
  | .bot, _ => .bot
  | _, .bot => .bot

/-- `<` on `float64` values (total on non-`NaN` values). -/
def xrLt : XR → XR → Prop
  | .bot, .bot => False
  | .bot, _ => True
  | .fin _, .bot => False
  | .fin a, .fin b => a < b
  | .fin _, .top => True
  | .top, _ => False

/-- Python `max` on `float64` values. -/
noncomputable def xrMax : XR → XR → XR
  | .bot, x => x
  | x, .bot => x
  | .top, _ => .top
  | _, .top => .top
  | .fin a, .fin b => .fin (max a b)

/-- `-np.log` on `float64`: `-log(+inf) = -inf`, `-log(0) = +inf`, finite
positive arguments give the finite real `-ln`.  `np.log` of a negative number
is `NaN`; that case is unreachable (scatter values are nonnegative) and is
mapped to `top` together with the 0 case. -/
noncomputable def negLogX : XR → XR
  | .top => .bot
  | .bot => .top
  | .fin r => if 0 < r then .fin (-Real.log r) else .top

/-- The lower-triangle index pairs `(i, j)`, `j < i`, in the order the loops
`for i in xrange(n): for j in xrange(i):` visit them. -/
def triPairs (n : ℕ) : List (ℕ × ℕ) :=
  (List.range n).flatMap (fun i => (List.range i).map (fun j => (i, j)))

/-- One iteration of the in-place transform loop body:
`m[i][j] = -np.log(m[i][j] + m[j][i]); m[j][i] = m[i][j]`. -/
noncomputable def tstep (m : ℕ → ℕ → XR) (p : ℕ × ℕ) : ℕ → ℕ → XR :=
  fun a b =>
    if (a, b) = (p.1, p.2) ∨ (a, b) = (p.2, p.1) then
      negLogX (xrAdd (m p.1 p.2) (m p.2 p.1))
    else m a b

/-- `CompleteAndWriteOGMatrices`, transform part, for one orthogroup matrix:
runs the in-place loop over the lower triangle, tracking
`max_og = max(max_og, m[i][j])` from the initial `-9e99`.  Returns the
transformed matrix and `max_og`. -/
noncomputable def completeOGMatrix (n : ℕ) (m : ℕ → ℕ → XR) : (ℕ → ℕ → XR) × XR :=
  (triPairs n).foldl
    (fun s p => (tstep s.1 p, xrMax s.2 (negLogX (xrAdd (s.1 p.1 p.2) (s.1 p.2 p.1)))))
    (m, .fin (-9e99))

/-! ### The Phylip serializer (`WritePhylipMatrix`) -/

/-- Rounding of `"%.6f"`: the printed value is `round6 v / 10^6`.  Exact ties
are rounded half-up here; the binary `float64` arguments of the code are never
exact decimal midpoints, so the tie-breaking rule is unobservable. -/
noncomputable def round6 (v : ℝ) : ℤ := ⌊v * 1000000 + 1 / 2⌋

/-- Left-pad a string to six characters with zeros. -/
def pad6 (s : String) : String := String.mk (List.replicate (6 - s.length) '0') ++ s

/-- Render `z / 10^6` in six-decimal fixed-point notation. -/
def renderFixed6 (z : ℤ) : String :=
  (if z < 0 then "-" else "") ++
    toString (z.natAbs / 1000000) ++ "." ++ pad6 (toString (z.natAbs % 1000000))

/-- `"%.6f" % v` for a finite `v`. -/
noncomputable def fmt6 (v : ℝ) : String := renderFixed6 (round6 v)

/-- `"%.6f" % v` on `float64` (infinite values print as `inf` / `-inf`). -/
noncomputable def fmtXR : XR → String
  | .bot => "-inf"
  | .fin r => fmt6 r
  | .top => "inf"

/-- `max_og = 1.1*max_og` at the head of `WritePhylipMatrix`. -/
noncomputable def scale11 : XR → XR
  | .bot => .bot
  | .fin r => .fin (1.1 * r)
  | .top => .top

/-- First substitution of `WritePhylipMatrix`:
`m[i][j] if m[i][j] > -9e99 else max_og` (with `max_og` already scaled).
The `0. +` in the code only normalises the float `-0.0`, which has no
counterpart in the real-valued model. -/
noncomputable def substSentinel (maxog11 : XR) : XR → XR
  | .bot => maxog11
  | .fin r => if (-9e99 : ℝ) < r then .fin r else maxog11
  | .top => .top

/-- Second substitution of `WritePhylipMatrix`:
`sliver if 0 < v < sliver else v` with `sliver = 1e-6`. -/
noncomputable def substSliver : XR → XR
  | .fin r => if 0 < r ∧ r < 1e-6 then .fin (1e-6 : ℝ) else .fin r
  | x => x

/-- The fully processed value written for one matrix cell. -/
noncomputable def phylipValue (maxog11 v : XR) : XR := substSliver (substSentinel maxog11 v)

/-- The space-separated values part of row `i` of the Phylip file. -/
noncomputable def phylipRowValues (m : ℕ → ℕ → XR) (maxog11 : XR) (n i : ℕ) : String :=
  String.intercalate " " ((List.range n).map (fun j => fmtXR (phylipValue maxog11 (m i j))))

/-- Row `i` of the Phylip file: `names[i] + " "` then the values. -/
noncomputable def phylipRowLine (names : ℕ → String) (m : ℕ → ℕ → XR) (maxog11 : XR)
    (n i : ℕ) : String :=
  names i ++ " " ++ phylipRowValues m maxog11 n i

/-- The lines of the file written by `WritePhylipMatrix` (header `"%d" % n`,
then one row per gene); `max_og` is the raw fourth argument, scaled inside. -/
noncomputable def writePhylipMatrix (m : ℕ → ℕ → XR) (names : ℕ → String) (n : ℕ)
    (max_og : XR) : List String :=
  toString n :: (List.range n).map (phylipRowLine names m (scale11 max_og) n)

/-! ### The inline species-matrix writer of `PrepareSpeciesTreeCommand` -/

/-- The value processing of the species-matrix writer: only the sliver
substitution — it has no `-9e99` sentinel substitution (and no `max_og`
parameter at all). -/
noncomputable def speciesWriterValue (v : XR) : XR := substSliver v

/-- Row `i` written by `PrepareSpeciesTreeCommand` for the species matrix. -/
noncomputable def speciesRowLine (names : ℕ → String) (m : ℕ → ℕ → XR) (n i : ℕ) : String :=
  names i ++ " " ++
    String.intercalate " " ((List.range n).map (fun j => fmtXR (speciesWriterValue (m i j))))

/-! ### Species-tree distances (`SpeciesTreeDistances`, `PrepareSpeciesTreeCommand`) -/

/-- `itertools.combinations(l, 2)` in order. -/
def combinations2 {α : Type} : List α → List (α × α)
  | [] => []
  | x :: xs => (xs.map (fun y => (x, y))) ++ combinations2 xs

/-- `spDict[sp]`: the orthogroup positions of the genes of species `sp`, in
`enumerate(og)` order. -/
def idxOfSp (og : List Seq) (sp : ℕ) : List ℕ :=
  (og.enum.filter (fun p => p.2.iSp == sp)).map (fun p => p.1)

/-- `[m[i][j] for i in spDict[sp1] for j in spDict[sp2]]`. -/
def crossDists (og : List Seq) (m : ℕ → ℕ → ℚ) (sp1 sp2 : ℕ) : List ℚ :=
  (idxOfSp og sp1).flatMap (fun i => (idxOfSp og sp2).map (fun j => m i j))

/-- `min(distances)` guarded by `len(distances) > 0`. -/
def minCross (og : List Seq) (m : ℕ → ℕ → ℚ) (sp1 sp2 : ℕ) : Option ℚ :=
  match crossDists og m sp1 sp2 with
  | [] => none
  | h :: t => some (t.foldl min h)

/-- One orthogroup's contribution in `SpeciesTreeDistances`: for each species
pair `(sp1, sp2)` (zipped with its sample list `d_list`), append
`min(distances)` when `len(distances) > 0`, else leave the list unchanged. -/
def stStep (speciesToUse : List ℕ) (D : List (List ℚ))
    (om : List Seq × (ℕ → ℕ → ℚ)) : List (List ℚ) :=
  ((combinations2 speciesToUse).zip D).map (fun pd =>
    match minCross om.1 om.2 pd.1.1 pd.1.2 with
    | none => pd.2
    | some v => pd.2 ++ [v])

/-- `SpeciesTreeDistances` (method 0): for each orthogroup in turn, append to
each species pair's list the minimum cross-species distance, skipping
orthogroups with no such gene pair. -/
def speciesTreeDistances (speciesToUse : List ℕ) (ogs : List (List Seq))
    (ms : List (ℕ → ℕ → ℚ)) : List (List ℚ) :=
  (ogs.zip ms).foldl (stStep speciesToUse) ((combinations2 speciesToUse).map (fun _ => []))

/-- Insertion of one element into a sorted list (ascending). -/
def insertSorted (x : ℚ) : List ℚ → List ℚ
  | [] => [x]
  | y :: t => if x ≤ y then x :: y :: t else y :: insertSorted x t

/-- Sorting, modelling the sort inside `np.median`. -/
def sortQ : List ℚ → List ℚ
  | [] => []
  | x :: t => insertSorted x (sortQ t)

/-- `np.median`: middle element of the sorted samples for odd length, mean of
the two middle elements for even length.  (`np.median([])` is `NaN`; the empty
case here carries the junk value `0`.) -/
def median (l : List ℚ) : ℚ :=
  let s := sortQ l
  let n := l.length
  if n % 2 = 1 then s.getD (n / 2) 0
  else (s.getD (n / 2 - 1) 0 + s.getD (n / 2) 0) / 2

/-- One step of the matrix-filling loop of `PrepareSpeciesTreeCommand`:
`sp1 = speciesToUse.index(sp1); sp2 = speciesToUse.index(sp2);
 x = np.median(d); M[sp1, sp2] = x; M[sp2, sp1] = x`. -/
def smWrite (speciesToUse : List ℕ) (M : ℕ → ℕ → ℚ) (pd : (ℕ × ℕ) × List ℚ) :
    ℕ → ℕ → ℚ :=
  let i1 := speciesToUse.indexOf pd.1.1
  let i2 := speciesToUse.indexOf pd.1.2
  fun a b => if (a, b) = (i1, i2) ∨ (a, b) = (i2, i1) then median pd.2 else M a b

/-- The species-by-species matrix built in `PrepareSpeciesTreeCommand`:
`M = zeros; for (sp1, sp2), d in zip(spPairs, D): ...` (see `smWrite`). -/
def speciesMatrix (speciesToUse : List ℕ) (D : List (List ℚ)) : ℕ → ℕ → ℚ :=
  ((combinations2 speciesToUse).zip D).foldl (smWrite speciesToUse) (fun _ _ => 0)

/-! ### Orthogroup selection (`OrthoGroupsSet.OGs`) -/

/-- `iOgs4`: `len(ogs) if len(ogs[-1]) >= 4 else next(i for i, og in
enumerate(ogs) if len(og) < 4)`.  (The code indexes `ogs_all[-1]`, so it is
only ever evaluated on a nonempty list.) -/
def iOgs4 (ogs : List (List Seq)) : ℕ :=
  if 4 ≤ (ogs.getLastD []).length then ogs.length
  else ogs.findIdx (fun og => og.length < 4)

/-- `OGs(qInclAll)`: the whole list, or its `iOgs4`-prefix. -/
def OGsOf (ogs : List (List Seq)) (qInclAll : Bool) : List (List Seq) :=
  if qInclAll then ogs else ogs.take (iOgs4 ogs)

/-! ## General list helpers -/

theorem getDlt {α : Type} (l : List α) (d : α) (k : ℕ) (hk : k < l.length) :
    l.getD k d = l[k] := by
  rw [List.getD_eq_getElem?_getD, List.getElem?_eq_getElem hk]
  rfl

theorem mem_of_getElem?_some {α : Type} {l : List α} {i : ℕ} {a : α}
    (h : l[i]? = some a) : a ∈ l := by
  obtain ⟨hlt, rfl⟩ := List.getElem?_eq_some_iff.mp h
  exact List.getElem_mem hlt

theorem xrAdd_comm (x y : XR) : xrAdd x y = xrAdd y x := by
  cases x <;> cases y <;> simp [xrAdd, add_comm]

theorem mem_triPairs (n : ℕ) (a b : ℕ) : (a, b) ∈ triPairs n ↔ b < a ∧ a < n := by
  simp only [triPairs, List.mem_flatMap, List.mem_map, List.mem_range, Prod.mk.injEq]
  constructor
  · rintro ⟨i, hi, j, hj, rfl, rfl⟩
    exact ⟨hj, hi⟩
  · rintro ⟨hb, ha⟩
    exact ⟨a, ha, b, hb, rfl, rfl⟩

theorem triPairs_nodup (n : ℕ) : (triPairs n).Nodup := by
  rw [triPairs, List.nodup_flatMap]
  constructor
  · intro i _
    exact (List.nodup_range i).map (fun a b h => congrArg Prod.snd h)
  · refine ((List.nodup_range n)).imp ?_
    intro x y hxy
    rw [Function.onFun]
    intro p hpx hpy
    simp only [List.mem_map, List.mem_range] at hpx hpy
    obtain ⟨j1, _, rfl⟩ := hpx
    obtain ⟨j2, _, h⟩ := hpy
    have hyx : y = x := congrArg Prod.fst h
    exact hxy hyx.symm

theorem tstep_eval (m : ℕ → ℕ → XR) (i j a b : ℕ) :
    tstep m (i, j) a b =
      if (a = i ∧ b = j) ∨ (a = j ∧ b = i) then negLogX (xrAdd (m i j) (m j i))
      else m a b := by
  simp [tstep, Prod.mk.injEq]

theorem foldl_tstep_closed (L : List (ℕ × ℕ)) (hod : ∀ p ∈ L, p.2 < p.1)
    (hnd : L.Nodup) (m : ℕ → ℕ → XR) (a b : ℕ) :
    (L.foldl tstep m) a b =
      if (a, b) ∈ L ∨ (b, a) ∈ L then negLogX (xrAdd (m a b) (m b a)) else m a b := by
  induction L generalizing m with
  | nil => simp
  | cons p L ih =>
    obtain ⟨i, j⟩ := p
    have hji : j < i := hod (i, j) (List.mem_cons_self _ _)
    have hodL : ∀ q ∈ L, q.2 < q.1 := fun q hq => hod q (List.mem_cons_of_mem _ hq)
    have hndL : L.Nodup := hnd.of_cons
    have hnotin : (i, j) ∉ L := (List.nodup_cons.mp hnd).1
    rw [List.foldl_cons, ih hodL hndL]
    by_cases hL : (a, b) ∈ L ∨ (b, a) ∈ L
    · rw [if_pos hL, if_pos (hL.imp (List.mem_cons_of_mem _) (List.mem_cons_of_mem _))]
      have k1 : ¬((a = i ∧ b = j) ∨ (a = j ∧ b = i)) := by
        rintro (⟨rfl, rfl⟩ | ⟨rfl, rfl⟩)
        · rcases hL with h | h
          · exact hnotin h
          · have := hodL _ h
            simp only at this
            omega
        · rcases hL with h | h
          · have := hodL _ h
            simp only at this
            omega
          · exact hnotin h
      have k2 : ¬((b = i ∧ a = j) ∨ (b = j ∧ a = i)) := by
        rintro (⟨rfl, rfl⟩ | ⟨rfl, rfl⟩)
        · rcases hL with h | h
          · have := hodL _ h
            simp only at this
            omega
          · exact hnotin h
        · rcases hL with h | h
          · exact hnotin h
          · have := hodL _ h
            simp only at this
            omega
      rw [tstep_eval, tstep_eval, if_neg k1, if_neg k2]
    · rw [if_neg hL, tstep_eval]
      by_cases hp : (a = i ∧ b = j) ∨ (a = j ∧ b = i)
      · rw [if_pos hp, if_pos]
        · rcases hp with ⟨rfl, rfl⟩ | ⟨rfl, rfl⟩
          · rfl
          · rw [xrAdd_comm]
        · rcases hp with ⟨rfl, rfl⟩ | ⟨rfl, rfl⟩
          · exact Or.inl (List.mem_cons_self _ _)
          · exact Or.inr (List.mem_cons_self _ _)
      · rw [if_neg hp, if_neg]
        simp only [List.mem_cons, Prod.mk.injEq, not_or]
        exact ⟨⟨fun h => hp (Or.inl h), fun h => hL (Or.inl h)⟩,
          ⟨fun h => hp (Or.inr ⟨h.2, h.1⟩), fun h => hL (Or.inr h)⟩⟩
      

theorem completeOGMatrix_fst (n : ℕ) (m : ℕ → ℕ → XR) :
    (completeOGMatrix n m).1 = (triPairs n).foldl tstep m := by
  rw [completeOGMatrix]
  generalize XR.fin (-9e99) = acc
  generalize triPairs n = L
  induction L generalizing m acc with
  | nil => rfl
  | cons p L ih =>
    simp only [List.foldl_cons]
    exact ih _ _

theorem triPairs_offdiag (n : ℕ) : ∀ p ∈ triPairs n, p.2 < p.1 := by
  intro p hp
  exact ((mem_triPairs n p.1 p.2).mp hp).1

theorem getD_ogsPerSpeciesOf (speciesToUse : List ℕ) (og : List Seq) (k : ℕ)
    (hk : k < speciesToUse.length) :
    (ogsPerSpeciesOf speciesToUse og).getD k [] =
      ((og.enum.filter (fun p => p.2.iSp == speciesToUse.getD k 0)).map (fun p => (p.2, p.1))) := by
  rw [ogsPerSpeciesOf, List.getD_eq_getElem?_getD, List.getElem?_map,
    List.getElem?_eq_getElem hk, List.getD_eq_getElem?_getD, List.getElem?_eq_getElem hk]
  rfl

theorem mem_perSp (speciesToUse : List ℕ) (og : List Seq) (k : ℕ)
    (hk : k < speciesToUse.length) (g : Seq) (i : ℕ) :
    (g, i) ∈ (ogsPerSpeciesOf speciesToUse og).getD k [] ↔
      og[i]? = some g ∧ g.iSp = speciesToUse.getD k 0 := by
  rw [getD_ogsPerSpeciesOf _ _ _ hk]
  simp only [List.mem_map, List.mem_filter, Prod.mk.injEq, beq_iff_eq]
  constructor
  · rintro ⟨p, ⟨hmem, hsp⟩, hg, hi⟩
    obtain ⟨pi, pg⟩ := p
    simp only at hg hi hsp
    subst hg; subst hi
    exact ⟨List.mk_mem_enum_iff_getElem?.mp hmem, hsp⟩
  · rintro ⟨hg, hsp⟩
    exact ⟨(i, g), ⟨List.mk_mem_enum_iff_getElem?.mpr hg, hsp⟩, rfl, rfl⟩

theorem mem_workerWrites (speciesToUse : List ℕ) (prov : ℕ → ℕ → SpMat) (og : List Seq)
    (iiSp : ℕ) (hii : iiSp < speciesToUse.length) (w : (ℕ × ℕ) × XQ) :
    w ∈ workerWrites speciesToUse prov og iiSp ↔
      ∃ jjSp, jjSp < speciesToUse.length ∧ ∃ gi gj : Seq,
        og[w.1.1]? = some gi ∧ gi.iSp = speciesToUse.getD iiSp 0 ∧
        og[w.1.2]? = some gj ∧ gj.iSp = speciesToUse.getD jjSp 0 ∧
        w.2 = scatterVal
          ((workerBs speciesToUse prov (speciesToUse.getD iiSp 0)).getD jjSp ⟨0, 0, fun _ _ => 0⟩)
          (combinedMins (workerBs speciesToUse prov (speciesToUse.getD iiSp 0)))
          (maxesInvOf (workerBs speciesToUse prov (speciesToUse.getD iiSp 0))) gi gj := by
  rw [workerWrites]
  simp only [List.mem_flatMap, List.mem_range, List.mem_map]
  constructor
  · rintro ⟨jjSp, hjj, gi, hgi, gj, hgj, rfl⟩
    obtain ⟨g1, i1⟩ := gi
    obtain ⟨g2, j2⟩ := gj
    rw [mem_perSp _ _ _ hii] at hgi
    rw [mem_perSp _ _ _ hjj] at hgj
    exact ⟨jjSp, hjj, g1, g2, hgi.1, hgi.2, hgj.1, hgj.2, rfl⟩
  · rintro ⟨jjSp, hjj, gi, gj, h1, h2, h3, h4, h5⟩
    refine ⟨jjSp, hjj, (gi, w.1.1), ?_, (gj, w.1.2), ?_, ?_⟩
    · exact (mem_perSp _ _ _ hii _ _).mpr ⟨h1, h2⟩
    · exact (mem_perSp _ _ _ hjj _ _).mpr ⟨h3, h4⟩
    · exact Prod.ext rfl h5.symm

theorem mem_take_findIdx {α : Type} (p : α → Bool) (l : List α) :
    ∀ x ∈ l.take (l.findIdx p), p x = false := by
  induction l with
  | nil => simp
  | cons a t ih =>
    rw [List.findIdx_cons]
    cases hpa : p a with
    | true => simp
    | false =>
      simp only [cond_false, List.take_succ_cons]
      intro x hx
      rcases List.mem_cons.mp hx with rfl | h
      · exact hpa
      · exact ih x h

theorem pairwise_le_getLastD (l : List (List Seq))
    (hs : l.Pairwise (fun a b => b.length ≤ a.length)) :
    ∀ a ∈ l, (l.getLastD []).length ≤ a.length := by
  induction l with
  | nil => simp
  | cons x t ih =>
    intro a ha
    rw [List.getLastD_cons]
    cases t with
    | nil =>
      rw [List.getLastD_nil]
      rcases List.mem_cons.mp ha with rfl | h
      · exact le_refl _
      · cases h
    | cons y s =>
      have hne2 : y :: s ≠ [] := by simp
      have hlast : (y :: s).getLastD x = (y :: s).getLast hne2 := by
        rw [List.getLastD_eq_getLast?, List.getLast?_eq_getLast _ hne2]
        rfl
      rcases List.mem_cons.mp ha with rfl | hmem
      · rw [hlast]
        exact (List.pairwise_cons.mp hs).1 _ (List.getLast_mem hne2)
      · have := ih (List.pairwise_cons.mp hs).2 a hmem
        rw [List.getLastD_cons] at this
        rw [List.getLastD_cons]
        exact this

theorem substSliver_keeps_gt (x : XR) (h : xrLt (XR.fin (-9e99)) x) :
    xrLt (XR.fin (-9e99)) (substSliver x) := by
  cases x with
  | bot => exact absurd h (by simp [xrLt])
  | top => simp [substSliver, xrLt]
  | fin r =>
    rw [substSliver]
    split
    · simp only [xrLt]
      norm_num
    · exact h

theorem substSliver_not_small (x : XR) :
    ¬(xrLt (XR.fin 0) (substSliver x) ∧ xrLt (substSliver x) (XR.fin (1e-6 : ℝ))) := by
  cases x with
  | bot => simp [substSliver, xrLt]
  | top => simp [substSliver, xrLt]
  | fin r =>
    rw [substSliver]
    split
    · rintro ⟨-, h2⟩
      simp only [xrLt] at h2
      exact absurd h2 (lt_irrefl _)
    · rename_i hc
      rintro ⟨h1, h2⟩
      simp only [xrLt] at h1 h2
      exact hc ⟨h1, h2⟩

/-- The matrix cells `{(i1,i2), (i2,i1)}` written for pair `p` do not overlap
those written for pair `q`. -/
def pairNC (stu : List ℕ) (p q : ℕ × ℕ) : Prop :=
  (stu.indexOf p.1, stu.indexOf p.2) ≠ (stu.indexOf q.1, stu.indexOf q.2) ∧
  (stu.indexOf p.1, stu.indexOf p.2) ≠ (stu.indexOf q.2, stu.indexOf q.1)

theorem smWrite_untouched (stu : List ℕ) (Z : List ((ℕ × ℕ) × List ℚ))
    (p : ℕ × ℕ) (hZ : ∀ qd ∈ Z, pairNC stu p qd.1) (M : ℕ → ℕ → ℚ) :
    (Z.foldl (smWrite stu) M) (stu.indexOf p.1) (stu.indexOf p.2) =
      M (stu.indexOf p.1) (stu.indexOf p.2) ∧
    (Z.foldl (smWrite stu) M) (stu.indexOf p.2) (stu.indexOf p.1) =
      M (stu.indexOf p.2) (stu.indexOf p.1) := by
  induction Z generalizing M with
  | nil => exact ⟨rfl, rfl⟩
  | cons qd Z ih =>
    obtain ⟨h1, h2⟩ := hZ qd (List.mem_cons_self _ _)
    rw [List.foldl_cons]
    have step1 : smWrite stu M qd (stu.indexOf p.1) (stu.indexOf p.2) =
        M (stu.indexOf p.1) (stu.indexOf p.2) := by
      rw [smWrite]
      exact if_neg (by push_neg; exact ⟨fun h => absurd h h1, fun h => absurd h h2⟩)
    have step2 : smWrite stu M qd (stu.indexOf p.2) (stu.indexOf p.1) =
        M (stu.indexOf p.2) (stu.indexOf p.1) := by
      rw [smWrite]
      refine if_neg ?_
      rintro (h | h)
      · refine h2 ?_
        have ha := congrArg Prod.fst h
        have hb := congrArg Prod.snd h
        simp only at ha hb
        simp [ha, hb]
      · refine h1 ?_
        have ha := congrArg Prod.fst h
        have hb := congrArg Prod.snd h
        simp only at ha hb
        simp [ha, hb]
    have hrec := ih (fun q hq => hZ q (List.mem_cons_of_mem _ hq)) (smWrite stu M qd)
    rw [hrec.1, hrec.2, step1, step2]
    exact ⟨rfl, rfl⟩

theorem smWrite_last (stu : List ℕ) (Z : List ((ℕ × ℕ) × List ℚ))
    (hnc : Z.Pairwise (fun pd qd => pairNC stu pd.1 qd.1)) (pd : (ℕ × ℕ) × List ℚ)
    (hpd : pd ∈ Z) (M : ℕ → ℕ → ℚ) :
    (Z.foldl (smWrite stu) M) (stu.indexOf pd.1.1) (stu.indexOf pd.1.2) = median pd.2 ∧
    (Z.foldl (smWrite stu) M) (stu.indexOf pd.1.2) (stu.indexOf pd.1.1) = median pd.2 := by
  induction Z generalizing M with
  | nil => cases hpd
  | cons qd Z ih =>
    rw [List.foldl_cons]
    rcases List.mem_cons.mp hpd with rfl | hmem
    · have hunt := smWrite_untouched stu Z pd.1 (List.pairwise_cons.mp hnc).1 (smWrite stu M pd)
      rw [hunt.1, hunt.2]
      constructor
      · rw [smWrite]
        exact if_pos (Or.inl rfl)
      · rw [smWrite]
        exact if_pos (Or.inr rfl)
    · exact ih (List.pairwise_cons.mp hnc).2 hmem _

theorem comb2_mem {α : Type} (l : List α) (p : α × α) (hp : p ∈ combinations2 l) :
    p.1 ∈ l ∧ p.2 ∈ l := by
  induction l with
  | nil => cases hp
  | cons x xs ih =>
    rw [combinations2, List.mem_append] at hp
    rcases hp with h | h
    · obtain ⟨y, hy, rfl⟩ := List.mem_map.mp h
      exact ⟨List.mem_cons_self _ _, List.mem_cons_of_mem _ hy⟩
    · obtain ⟨h1, h2⟩ := ih h
      exact ⟨List.mem_cons_of_mem _ h1, List.mem_cons_of_mem _ h2⟩

theorem comb2_nodup {α : Type} [DecidableEq α] (l : List α) (hl : l.Nodup) :
    (combinations2 l).Nodup := by
  induction l with
  | nil => exact List.nodup_nil
  | cons x xs ih =>
    rw [combinations2]
    have hx : x ∉ xs := (List.nodup_cons.mp hl).1
    refine List.Nodup.append ?_ (ih (List.nodup_cons.mp hl).2) ?_
    · exact ((List.nodup_cons.mp hl).2).map (fun a b h => congrArg Prod.snd h)
    · intro p hp1 hp2
      obtain ⟨y, hy, rfl⟩ := List.mem_map.mp hp1
      exact hx (comb2_mem xs _ hp2).1

theorem comb2_indexOf_lt (l : List ℕ) (hl : l.Nodup) (p : ℕ × ℕ)
    (hp : p ∈ combinations2 l) : l.indexOf p.1 < l.indexOf p.2 := by
  induction l with
  | nil => cases hp
  | cons x xs ih =>
    have hx : x ∉ xs := (List.nodup_cons.mp hl).1
    rw [combinations2, List.mem_append] at hp
    rcases hp with h | h
    · obtain ⟨y, hy, rfl⟩ := List.mem_map.mp h
      have hyx : y ≠ x := fun hh => hx (hh ▸ hy)
      rw [List.indexOf_cons_self, List.indexOf_cons_ne _ hyx.symm]
      exact Nat.succ_pos _
    · have h1 : p.1 ∈ xs := (comb2_mem xs _ h).1
      have h2 : p.2 ∈ xs := (comb2_mem xs _ h).2
      have hne1 : p.1 ≠ x := fun hh => hx (hh ▸ h1)
      have hne2 : p.2 ≠ x := fun hh => hx (hh ▸ h2)
      rw [List.indexOf_cons_ne _ hne1.symm, List.indexOf_cons_ne _ hne2.symm]
      exact Nat.succ_lt_succ (ih (List.nodup_cons.mp hl).2 h)

theorem comb2_pairwiseNC (stu : List ℕ) (hnd : stu.Nodup) :
    (combinations2 stu).Pairwise (pairNC stu) := by
  rw [List.pairwise_iff_getElem]
  intro i j hi hj hij
  set p := (combinations2 stu)[i] with hp
  set q := (combinations2 stu)[j] with hq
  have hpm : p ∈ combinations2 stu := List.getElem_mem hi
  have hqm : q ∈ combinations2 stu := List.getElem_mem hj
  have hpq : p ≠ q := by
    intro h
    have := (comb2_nodup stu hnd).getElem_inj_iff.mp (hp ▸ hq ▸ h)
    omega
  have hplt := comb2_indexOf_lt stu hnd p hpm
  have hqlt := comb2_indexOf_lt stu hnd q hqm
  constructor
  · intro h
    have h1 := congrArg Prod.fst h
    have h2 := congrArg Prod.snd h
    simp only at h1 h2
    rw [List.indexOf_inj (comb2_mem stu p hpm).1 (comb2_mem stu q hqm).1] at h1
    rw [List.indexOf_inj (comb2_mem stu p hpm).2 (comb2_mem stu q hqm).2] at h2
    exact hpq (Prod.ext h1 h2)
  · intro h
    have h1 := congrArg Prod.fst h
    have h2 := congrArg Prod.snd h
    simp only at h1 h2
    omega

theorem pairwise_zip_left {α β : Type} (R : α → α → Prop) :
    ∀ (l1 : List α) (l2 : List β), l1.Pairwise R →
      (l1.zip l2).Pairwise (fun a b => R a.1 b.1) := by
  intro l1
  induction l1 with
  | nil => intro l2 _; simp
  | cons x t ih =>
    intro l2 hR
    cases l2 with
    | nil => simp
    | cons y s =>
      rw [List.zip_cons_cons, List.pairwise_cons]
      constructor
      · intro b hb
        exact (List.pairwise_cons.mp hR).1 b.1 (List.of_mem_zip hb).1
      · exact ih s (List.pairwise_cons.mp hR).2

theorem stStep_length (stu : List ℕ) (D : List (List ℚ)) (om : List Seq × (ℕ → ℕ → ℚ))
    (hD : D.length = (combinations2 stu).length) :
    (stStep stu D om).length = (combinations2 stu).length := by
  rw [stStep, List.length_map, List.length_zip, hD, min_self]

theorem stStep_getD (stu : List ℕ) (D : List (List ℚ)) (om : List Seq × (ℕ → ℕ → ℚ))
    (hD : D.length = (combinations2 stu).length) (k : ℕ)
    (hk : k < (combinations2 stu).length) :
    (stStep stu D om).getD k [] =
      match minCross om.1 om.2 ((combinations2 stu).getD k (0, 0)).1
          ((combinations2 stu).getD k (0, 0)).2 with
      | none => D.getD k []
      | some v => D.getD k [] ++ [v] := by
  have hk2 : k < (stStep stu D om).length := by rw [stStep_length stu D om hD]; exact hk
  have hkD : k < D.length := by rw [hD]; exact hk
  rw [getDlt _ _ _ hk2, getDlt _ _ _ hkD, getDlt _ _ _ hk]
  simp only [stStep, List.getElem_map, List.getElem_zip]

theorem stD_foldl_length (stu : List ℕ) (L : List (List Seq × (ℕ → ℕ → ℚ))) :
    ∀ D : List (List ℚ), D.length = (combinations2 stu).length →
      (L.foldl (stStep stu) D).length = (combinations2 stu).length := by
  induction L with
  | nil => intro D hD; exact hD
  | cons om L ih =>
    intro D hD
    rw [List.foldl_cons]
    exact ih _ (stStep_length stu D om hD)

theorem stD_fold (stu : List ℕ) (L : List (List Seq × (ℕ → ℕ → ℚ))) :
    ∀ D : List (List ℚ), D.length = (combinations2 stu).length →
    ∀ k, k < (combinations2 stu).length →
      (L.foldl (stStep stu) D).getD k [] =
        D.getD k [] ++ L.filterMap (fun om =>
          minCross om.1 om.2 ((combinations2 stu).getD k (0, 0)).1
            ((combinations2 stu).getD k (0, 0)).2) := by
  induction L with
  | nil =>
    intro D hD k hk
    simp
  | cons om L ih =>
    intro D hD k hk
    rw [List.foldl_cons, ih (stStep stu D om) (stStep_length stu D om hD) k hk,
      stStep_getD stu D om hD k hk, List.filterMap_cons]
    cases minCross om.1 om.2 ((combinations2 stu).getD k (0, 0)).1
        ((combinations2 stu).getD k (0, 0)).2 with
    | none => rfl
    | some v => rw [List.append_assoc, List.singleton_append]

theorem stD_length (stu : List ℕ) (ogs : List (List Seq)) (ms : List (ℕ → ℕ → ℚ)) :
    (speciesTreeDistances stu ogs ms).length = (combinations2 stu).length := by
  rw [speciesTreeDistances]
  exact stD_foldl_length stu _ _ (by rw [List.length_map])

theorem stD_getD (stu : List ℕ) (ogs : List (List Seq)) (ms : List (ℕ → ℕ → ℚ))
    (k : ℕ) (hk : k < (combinations2 stu).length) :
    (speciesTreeDistances stu ogs ms).getD k [] =
      (ogs.zip ms).filterMap (fun om =>
        minCross om.1 om.2 ((combinations2 stu).getD k (0, 0)).1
          ((combinations2 stu).getD k (0, 0)).2) := by
  rw [speciesTreeDistances, stD_fold stu _ _ (by rw [List.length_map]) k hk]
  have : ((combinations2 stu).map (fun _ => ([] : List ℚ))).getD k [] = [] := by
    rw [getDlt _ _ _ (by rw [List.length_map]; exact hk), List.getElem_map]
  rw [this, List.nil_append]

theorem median_example : median [0.1, 0.3, 0.5, 0.9] = 0.4 := by
  norm_num [median, sortQ, insertSorted, List.getD_cons_succ, List.getD_cons_zero]

theorem foldl_min_le_init (l : List ℚ) (a : ℚ) : l.foldl min a ≤ a := by
  induction l generalizing a with
  | nil => exact le_refl a
  | cons h t ih => exact le_trans (ih (min a h)) (min_le_left a h)

theorem foldl_min_le_mem (l : List ℚ) (a x : ℚ) (hx : x ∈ l) : l.foldl min a ≤ x := by
  induction l generalizing a with
  | nil => cases hx
  | cons h t ih =>
    rcases List.mem_cons.mp hx with rfl | hm
    · exact le_trans (foldl_min_le_init t (min a x)) (min_le_right a x)
    · exact ih (min a h) hm

theorem le_foldl_min (l : List ℚ) (a c : ℚ) (hc : c ≤ a) (h : ∀ x ∈ l, c ≤ x) :
    c ≤ l.foldl min a := by
  induction l generalizing a with
  | nil => exact hc
  | cons x t ih =>
    exact ih (min a x) (le_min hc (h x (List.mem_cons_self _ _)))
      (fun y hy => h y (List.mem_cons_of_mem _ hy))

theorem le_foldl_max_init (l : List ℚ) (a : ℚ) : a ≤ l.foldl max a := by
  induction l generalizing a with
  | nil => exact le_refl a
  | cons h t ih => exact le_trans (le_max_left a h) (ih (max a h))

theorem le_foldl_max_mem (l : List ℚ) (a x : ℚ) (hx : x ∈ l) : x ≤ l.foldl max a := by
  induction l generalizing a with
  | nil => cases hx
  | cons h t ih =>
    rcases List.mem_cons.mp hx with rfl | hm
    · exact le_trans (le_max_right a x) (le_foldl_max_init t (max a x))
    · exact ih (max a h) hm

theorem foldl_max_le (l : List ℚ) (a c : ℚ) (hc : a ≤ c) (h : ∀ x ∈ l, x ≤ c) :
    l.foldl max a ≤ c := by
  induction l generalizing a with
  | nil => exact hc
  | cons x t ih =>
    exact ih (max a x) (max_le hc (h x (List.mem_cons_self _ _)))
      (fun y hy => h y (List.mem_cons_of_mem _ hy))

theorem foldl_max_cases (l : List ℚ) (a : ℚ) : l.foldl max a = a ∨ l.foldl max a ∈ l := by
  induction l generalizing a with
  | nil => exact Or.inl rfl
  | cons h t ih =>
    rcases ih (max a h) with hc | hc
    · rcases max_choice a h with hm | hm
      · exact Or.inl (by rw [List.foldl_cons, hc, hm])
      · exact Or.inr (by rw [List.foldl_cons, hc, hm]; exact List.mem_cons_self _ _)
    · exact Or.inr (List.mem_cons_of_mem _ hc)

theorem mem_rowData (M : SpMat) (k : ℕ) (q : ℚ) :
    q ∈ rowData M k ↔ (∃ j, j < M.cols ∧ M.entry k j = q) ∧ q ≠ 0 := by
  rw [rowData]
  simp only [List.mem_filter, List.mem_map, List.mem_range, decide_not,
    Bool.not_eq_eq_eq_not, Bool.not_true, decide_eq_false_iff_not]

theorem lilRowMin_nonneg (M : SpMat) (k : ℕ) (hnn : ∀ a b, 0 ≤ M.entry a b) :
    0 ≤ lilRowMin M k := by
  rw [lilRowMin]
  rcases hr : rowData M k with - | ⟨h, t⟩
  · norm_num
  · have hmem : ∀ x ∈ rowData M k, 0 ≤ x := by
      intro x hx
      obtain ⟨⟨j, -, rfl⟩, -⟩ := (mem_rowData M k x).mp hx
      exact hnn k j
    refine le_foldl_min t h 0 (hmem h (by rw [hr]; exact List.mem_cons_self _ _)) ?_
    intro x hx
    exact hmem x (by rw [hr]; exact List.mem_cons_of_mem _ hx)

theorem lilRowMin_le_lilRowMax (M : SpMat) (k : ℕ) (hne : rowData M k ≠ []) :
    lilRowMin M k ≤ lilRowMax M k := by
  rw [lilRowMin, lilRowMax]
  rcases hr : rowData M k with - | ⟨h, t⟩
  · exact absurd hr hne
  · exact le_trans (foldl_min_le_init t h) (le_foldl_max_init t h)

theorem lilRowMax_eq_zero (M : SpMat) (k : ℕ) (hnn : ∀ a b, 0 ≤ M.entry a b)
    (hz : lilRowMax M k = 0) : rowData M k = [] := by
  rcases hr : rowData M k with - | ⟨h, t⟩
  · rfl
  · exfalso
    have hh : h ∈ rowData M k := by rw [hr]; exact List.mem_cons_self _ _
    obtain ⟨⟨j, -, rfl⟩, hne⟩ := (mem_rowData M k h).mp hh
    have hpos : 0 < M.entry k j := lt_of_le_of_ne (hnn k j) (Ne.symm hne)
    have : M.entry k j ≤ lilRowMax M k := by
      rw [lilRowMax, hr]
      exact le_foldl_max_init t _
    rw [hz] at this
    exact absurd (lt_of_lt_of_le hpos this) (lt_irrefl 0)

theorem entry_le_lilRowMax (M : SpMat) (k j : ℕ) (hj : j < M.cols)
    (hne : M.entry k j ≠ 0) : M.entry k j ≤ lilRowMax M k := by
  have hmem : M.entry k j ∈ rowData M k := (mem_rowData M k _).mpr ⟨⟨j, hj, rfl⟩, hne⟩
  rw [lilRowMax]
  rcases hr : rowData M k with - | ⟨h, t⟩
  · rw [hr] at hmem; cases hmem
  · rw [hr] at hmem
    rcases List.mem_cons.mp hmem with he | hm
    · rw [he]; exact le_foldl_max_init t _
    · exact le_foldl_max_mem t h _ hm

theorem combinedMins_map (Bs : List SpMat) (g : ℕ) :
    combinedMins Bs g = (Bs.map (fun B => lilRowMin B g)).foldl min 9e99 := by
  rw [combinedMins, List.foldl_map]

theorem combinedMaxes_map (Bs : List SpMat) (g : ℕ) :
    combinedMaxes Bs g = (Bs.map (fun B => lilRowMax B g)).foldl max 0 := by
  rw [combinedMaxes, List.foldl_map]

theorem lilRowMax_nonneg (M : SpMat) (k : ℕ) (hnn : ∀ a b, 0 ≤ M.entry a b) :
    0 ≤ lilRowMax M k := by
  rw [lilRowMax]
  rcases hr : rowData M k with - | ⟨h, t⟩
  · exact le_refl 0
  · have hh : h ∈ rowData M k := by rw [hr]; exact List.mem_cons_self _ _
    obtain ⟨⟨j, -, rfl⟩, -⟩ := (mem_rowData M k h).mp hh
    exact le_trans (hnn k j) (le_foldl_max_init t _)

theorem combinedMins_nonneg (Bs : List SpMat) (g : ℕ)
    (hnn : ∀ B ∈ Bs, ∀ a b, 0 ≤ B.entry a b) : 0 ≤ combinedMins Bs g := by
  rw [combinedMins_map]
  refine le_foldl_min _ _ 0 (by norm_num) ?_
  intro x hx
  obtain ⟨B, hB, rfl⟩ := List.mem_map.mp hx
  exact lilRowMin_nonneg B g (hnn B hB)

theorem combinedMins_le (Bs : List SpMat) (g : ℕ) (B : SpMat) (hB : B ∈ Bs) :
    combinedMins Bs g ≤ lilRowMin B g := by
  rw [combinedMins_map]
  exact foldl_min_le_mem _ _ _ (List.mem_map.mpr ⟨B, hB, rfl⟩)

theorem le_combinedMaxes (Bs : List SpMat) (g : ℕ) (B : SpMat) (hB : B ∈ Bs) :
    lilRowMax B g ≤ combinedMaxes Bs g := by
  rw [combinedMaxes_map]
  exact le_foldl_max_mem _ _ _ (List.mem_map.mpr ⟨B, hB, rfl⟩)

theorem combinedMaxes_attained (Bs : List SpMat) (g : ℕ)
    (hpos : 0 < combinedMaxes Bs g) :
    ∃ B ∈ Bs, lilRowMax B g = combinedMaxes Bs g := by
  rw [combinedMaxes_map] at hpos ⊢
  rcases foldl_max_cases (Bs.map (fun B => lilRowMax B g)) 0 with hc | hc
  · rw [hc] at hpos
    exact absurd hpos (lt_irrefl 0)
  · obtain ⟨B, hB, hE⟩ := List.mem_map.mp hc
    exact ⟨B, hB, hE⟩

theorem combinedMins_le_combinedMaxes (Bs : List SpMat) (g : ℕ)
    (_hnn : ∀ B ∈ Bs, ∀ a b, 0 ≤ B.entry a b) (hpos : 0 < combinedMaxes Bs g) :
    combinedMins Bs g ≤ combinedMaxes Bs g := by
  obtain ⟨B, hB, hE⟩ := combinedMaxes_attained Bs g hpos
  have hne : rowData B g ≠ [] := by
    intro hr
    rw [lilRowMax, hr] at hE
    rw [← hE] at hpos
    exact absurd hpos (lt_irrefl 0)
  calc combinedMins Bs g ≤ lilRowMin B g := combinedMins_le Bs g B hB
    _ ≤ lilRowMax B g := lilRowMin_le_lilRowMax B g hne
    _ = combinedMaxes Bs g := hE

theorem entry_le_combinedMaxes (Bs : List SpMat) (B : SpMat) (hB : B ∈ Bs) (g j : ℕ)
    (hj : j < B.cols) (hne : B.entry g j ≠ 0) : B.entry g j ≤ combinedMaxes Bs g :=
  le_trans (entry_le_lilRowMax B g j hj hne) (le_combinedMaxes Bs g B hB)

theorem combinedMins_sentinel (Bs : List SpMat) (g : ℕ)
    (hnn : ∀ B ∈ Bs, ∀ a b, 0 ≤ B.entry a b) (hz : combinedMaxes Bs g = 0) :
    combinedMins Bs g = (9e99 : ℚ) := by
  have hall : ∀ B ∈ Bs, lilRowMin B g = (9e99 : ℚ) := by
    intro B hB
    have h1 : lilRowMax B g ≤ 0 := hz ▸ le_combinedMaxes Bs g B hB
    have h2 : lilRowMax B g = 0 := le_antisymm h1 (lilRowMax_nonneg B g (hnn B hB))
    rw [lilRowMin, lilRowMax_eq_zero B g (hnn B hB) h2]
  refine le_antisymm ?_ ?_
  · rw [combinedMins_map]
    exact foldl_min_le_init _ _
  · rw [combinedMins_map]
    refine le_foldl_min _ _ _ (le_refl _) ?_
    intro x hx
    obtain ⟨B, hB, rfl⟩ := List.mem_map.mp hx
    rw [hall B hB]

theorem scatterVal_formula_bound (Bs : List SpMat) (B : SpMat) (hB : B ∈ Bs)
    (hnn : ∀ B' ∈ Bs, ∀ a b, 0 ≤ B'.entry a b) (gi gj : Seq)
    (hj : gj.iSeq < B.cols) (hpos : 0 < combinedMaxes Bs gi.iSeq) :
    scatterVal B (combinedMins Bs) (maxesInvOf Bs) gi gj =
      XQ.fin ((0.5 : ℚ) * max (B.entry gi.iSeq gj.iSeq) (combinedMins Bs gi.iSeq) /
        combinedMaxes Bs gi.iSeq) ∧
    0 ≤ (0.5 : ℚ) * max (B.entry gi.iSeq gj.iSeq) (combinedMins Bs gi.iSeq) /
      combinedMaxes Bs gi.iSeq ∧
    (0.5 : ℚ) * max (B.entry gi.iSeq gj.iSeq) (combinedMins Bs gi.iSeq) /
      combinedMaxes Bs gi.iSeq ≤ 1 / 2 := by
  have hmaxnn : 0 ≤ max (B.entry gi.iSeq gj.iSeq) (combinedMins Bs gi.iSeq) :=
    le_trans (hnn B hB gi.iSeq gj.iSeq) (le_max_left _ _)
  have hmaxle : max (B.entry gi.iSeq gj.iSeq) (combinedMins Bs gi.iSeq) ≤
      combinedMaxes Bs gi.iSeq := by
    refine max_le ?_ (combinedMins_le_combinedMaxes Bs gi.iSeq hnn hpos)
    by_cases he : B.entry gi.iSeq gj.iSeq = 0
    · rw [he]; exact le_of_lt hpos
    · exact entry_le_combinedMaxes Bs B hB gi.iSeq gj.iSeq hj he
  refine ⟨?_, ?_, ?_⟩
  · rw [scatterVal, maxesInvOf, if_neg (ne_of_gt hpos), xqMul, div_eq_mul_inv]
  · positivity
  · rw [div_le_iff₀ hpos]
    calc (0.5 : ℚ) * max (B.entry gi.iSeq gj.iSeq) (combinedMins Bs gi.iSeq)
        ≤ (0.5 : ℚ) * combinedMaxes Bs gi.iSeq := by
          exact mul_le_mul_of_nonneg_left hmaxle (by norm_num)
      _ = 1 / 2 * combinedMaxes Bs gi.iSeq := by norm_num

theorem scatterVal_inf (Bs : List SpMat) (B : SpMat) (_hB : B ∈ Bs)
    (hnn : ∀ B' ∈ Bs, ∀ a b, 0 ≤ B'.entry a b) (gi gj : Seq)
    (hz : combinedMaxes Bs gi.iSeq = 0) :
    scatterVal B (combinedMins Bs) (maxesInvOf Bs) gi gj = XQ.top := by
  have hmins := combinedMins_sentinel Bs gi.iSeq hnn hz
  have hspos : 0 < (0.5 : ℚ) * max (B.entry gi.iSeq gj.iSeq) (combinedMins Bs gi.iSeq) := by
    rw [hmins]
    have : (9e99 : ℚ) ≤ max (B.entry gi.iSeq gj.iSeq) 9e99 := le_max_right _ _
    nlinarith
  rw [scatterVal, maxesInvOf, if_pos hz, xqMul, if_pos hspos]

theorem workerBs_nonneg (speciesToUse : List ℕ) (prov : ℕ → ℕ → SpMat) (sp1 : ℕ)
    (hnn : ∀ a b i j, 0 ≤ (prov a b).entry i j) :
    ∀ B ∈ workerBs speciesToUse prov sp1, ∀ i j, 0 ≤ B.entry i j := by
  intro B hB i j
  obtain ⟨sp2, -, rfl⟩ := List.mem_map.mp hB
  exact hnn sp1 sp2 i j

/-! ## Concrete instances used by witnesses and counterexamples -/

def exOg : List Seq := [⟨0, 0⟩, ⟨1, 0⟩]
def exSpecies : List ℕ := [0, 1]
def exProv : ℕ → ℕ → SpMat := fun a b =>
  if a = b then ⟨1, 1, fun _ _ => 0⟩ else ⟨1, 1, fun i j => if i = 0 ∧ j = 0 then 10 else 0⟩

theorem exMins0 : combinedMins (workerBs exSpecies exProv 0) 0 = 10 := by
  have h1 : lilRowMin (exProv 0 0) 0 = 9e99 := by
    simp [lilRowMin, show rowData (exProv 0 0) 0 = [] by decide]
  have h2 : lilRowMin (exProv 0 1) 0 = 10 := by
    simp [lilRowMin, show rowData (exProv 0 1) 0 = [10] by decide]
  simp [combinedMins, workerBs, exSpecies, h1, h2, min_def]
  norm_num

theorem exMaxes0 : combinedMaxes (workerBs exSpecies exProv 0) 0 = 10 := by
  have h1 : lilRowMax (exProv 0 0) 0 = 0 := by
    simp [lilRowMax, show rowData (exProv 0 0) 0 = [] by decide]
  have h2 : lilRowMax (exProv 0 1) 0 = 10 := by
    simp [lilRowMax, show rowData (exProv 0 1) 0 = [10] by decide]
  simp [combinedMaxes, workerBs, exSpecies, h1, h2, max_def]

theorem exMins1 : combinedMins (workerBs exSpecies exProv 1) 0 = 10 := by
  have h1 : lilRowMin (exProv 1 0) 0 = 10 := by
    simp [lilRowMin, show rowData (exProv 1 0) 0 = [10] by decide]
  have h2 : lilRowMin (exProv 1 1) 0 = 9e99 := by
    simp [lilRowMin, show rowData (exProv 1 1) 0 = [] by decide]
  simp [combinedMins, workerBs, exSpecies, h1, h2, min_def]
  norm_num

theorem exMaxes1 : combinedMaxes (workerBs exSpecies exProv 1) 0 = 10 := by
  have h1 : lilRowMax (exProv 1 0) 0 = 10 := by
    simp [lilRowMax, show rowData (exProv 1 0) 0 = [10] by decide]
  have h2 : lilRowMax (exProv 1 1) 0 = 0 := by
    simp [lilRowMax, show rowData (exProv 1 1) 0 = [] by decide]
  simp [combinedMaxes, workerBs, exSpecies, h1, h2, max_def]

theorem exMinv0 : maxesInvOf (workerBs exSpecies exProv 0) 0 = XQ.fin (1/10) := by
  rw [maxesInvOf, exMaxes0]
  norm_num

theorem exMinv1 : maxesInvOf (workerBs exSpecies exProv 1) 0 = XQ.fin (1/10) := by
  rw [maxesInvOf, exMaxes1]
  norm_num

theorem exWrites0_struct : workerWrites exSpecies exProv exOg 0 =
    [((0, 0), scatterVal (exProv 0 0) (combinedMins (workerBs exSpecies exProv 0))
        (maxesInvOf (workerBs exSpecies exProv 0)) ⟨0, 0⟩ ⟨0, 0⟩),
     ((0, 1), scatterVal (exProv 0 1) (combinedMins (workerBs exSpecies exProv 0))
        (maxesInvOf (workerBs exSpecies exProv 0)) ⟨0, 0⟩ ⟨1, 0⟩)] := rfl

theorem exWrites1_struct : workerWrites exSpecies exProv exOg 1 =
    [((1, 0), scatterVal (exProv 1 0) (combinedMins (workerBs exSpecies exProv 1))
        (maxesInvOf (workerBs exSpecies exProv 1)) ⟨1, 0⟩ ⟨0, 0⟩),
     ((1, 1), scatterVal (exProv 1 1) (combinedMins (workerBs exSpecies exProv 1))
        (maxesInvOf (workerBs exSpecies exProv 1)) ⟨1, 0⟩ ⟨1, 0⟩)] := rfl

theorem exWrites0 : workerWrites exSpecies exProv exOg 0 =
    [((0, 0), XQ.fin (1/2)), ((0, 1), XQ.fin (1/2))] := by
  rw [exWrites0_struct]
  have h1 : scatterVal (exProv 0 0) (combinedMins (workerBs exSpecies exProv 0))
      (maxesInvOf (workerBs exSpecies exProv 0)) ⟨0, 0⟩ ⟨0, 0⟩ = XQ.fin (1/2) := by
    rw [scatterVal, exMins0, exMinv0]
    norm_num [exProv, xqMul, max_def]
  have h2 : scatterVal (exProv 0 1) (combinedMins (workerBs exSpecies exProv 0))
      (maxesInvOf (workerBs exSpecies exProv 0)) ⟨0, 0⟩ ⟨1, 0⟩ = XQ.fin (1/2) := by
    rw [scatterVal, exMins0, exMinv0]
    norm_num [exProv, xqMul, max_def]
  rw [h1, h2]

theorem exWrites1 : workerWrites exSpecies exProv exOg 1 =
    [((1, 0), XQ.fin (1/2)), ((1, 1), XQ.fin (1/2))] := by
  rw [exWrites1_struct]
  have h1 : scatterVal (exProv 1 0) (combinedMins (workerBs exSpecies exProv 1))
      (maxesInvOf (workerBs exSpecies exProv 1)) ⟨1, 0⟩ ⟨0, 0⟩ = XQ.fin (1/2) := by
    rw [scatterVal, exMins1, exMinv1]
    norm_num [exProv, xqMul, max_def]
  have h2 : scatterVal (exProv 1 1) (combinedMins (workerBs exSpecies exProv 1))
      (maxesInvOf (workerBs exSpecies exProv 1)) ⟨1, 0⟩ ⟨1, 0⟩ = XQ.fin (1/2) := by
    rw [scatterVal, exMins1, exMinv1]
    norm_num [exProv, xqMul, max_def]
  rw [h1, h2]

theorem exAllWrites : allWrites exSpecies exProv exOg =
    [((0, 0), XQ.fin (1/2)), ((0, 1), XQ.fin (1/2)),
     ((1, 0), XQ.fin (1/2)), ((1, 1), XQ.fin (1/2))] := by
  rw [allWrites, show (exSpecies.length) = 2 from rfl,
    show List.range 2 = [0, 1] from rfl]
  rw [List.flatMap_cons, List.flatMap_cons, List.flatMap_nil, exWrites0, exWrites1]
  rfl

theorem exScatter_eval : ∀ a b, a < 2 → b < 2 →
    scatterMatrix exSpecies exProv exOg a b = XQ.fin (1/2) := by
  intro a b ha hb
  rw [scatterMatrix, exAllWrites]
  interval_cases a <;> interval_cases b <;> simp

/-- The scatter matrix of the example, injected into transform-phase values. -/
noncomputable def exM0 : ℕ → ℕ → XR :=
  fun a b => (scatterMatrix exSpecies exProv exOg a b).toXR

theorem exM0_eval : ∀ a b, a < 2 → b < 2 → exM0 a b = XR.fin ((1 : ℝ)/2) := by
  intro a b ha hb
  rw [exM0, exScatter_eval a b ha hb, XQ.toXR]
  norm_num

theorem exTri : triPairs 2 = [(1, 0)] := rfl

theorem exNegLog : negLogX (xrAdd (exM0 1 0) (exM0 0 1)) = XR.fin 0 := by
  rw [exM0_eval 1 0 (by norm_num) (by norm_num), exM0_eval 0 1 (by norm_num) (by norm_num),
    xrAdd]
  rw [negLogX.eq_def]
  simp only
  rw [if_pos (by norm_num : (0:ℝ) < 1/2 + 1/2)]
  norm_num [Real.log_one, show (1:ℝ)/2 + 1/2 = 1 by norm_num]

theorem exMfst : (completeOGMatrix 2 exM0).1 = tstep exM0 (1, 0) := by
  rw [completeOGMatrix, exTri, List.foldl_cons, List.foldl_nil]

theorem exM_00 : (completeOGMatrix 2 exM0).1 0 0 = XR.fin ((1 : ℝ)/2) := by
  rw [exMfst, tstep]
  simp only [Prod.mk.injEq]
  rw [if_neg (by simp)]
  exact exM0_eval 0 0 (by norm_num) (by norm_num)

theorem exM_01 : (completeOGMatrix 2 exM0).1 0 1 = XR.fin 0 := by
  rw [exMfst, tstep]
  simp only [Prod.mk.injEq]
  rw [if_pos (by simp)]
  exact exNegLog

theorem exM_10 : (completeOGMatrix 2 exM0).1 1 0 = XR.fin 0 := by
  rw [exMfst, tstep]
  simp only [Prod.mk.injEq]
  rw [if_pos (by simp)]
  exact exNegLog

theorem exM_11 : (completeOGMatrix 2 exM0).1 1 1 = XR.fin ((1 : ℝ)/2) := by
  rw [exMfst, tstep]
  simp only [Prod.mk.injEq]
  rw [if_neg (by simp)]
  exact exM0_eval 1 1 (by norm_num) (by norm_num)

theorem exMsnd : (completeOGMatrix 2 exM0).2 = XR.fin 0 := by
  rw [completeOGMatrix, exTri, List.foldl_cons, List.foldl_nil]
  simp only
  rw [exNegLog, xrMax]
  rw [max_eq_right (by norm_num : (-9e99 : ℝ) ≤ 0)]

theorem exScale : scale11 (XR.fin 0) = XR.fin 0 := by
  rw [scale11]
  norm_num

theorem pv_half : phylipValue (XR.fin 0) (XR.fin ((1 : ℝ)/2)) = XR.fin ((1 : ℝ)/2) := by
  rw [phylipValue, substSentinel, if_pos (by norm_num : (-9e99 : ℝ) < 1/2), substSliver,
    if_neg (by norm_num)]

theorem pv_zero : phylipValue (XR.fin 0) (XR.fin 0) = XR.fin 0 := by
  rw [phylipValue, substSentinel, if_pos (by norm_num : (-9e99 : ℝ) < 0), substSliver,
    if_neg (by norm_num)]

theorem round6_half : round6 ((1 : ℝ)/2) = 500000 := by
  rw [round6, Int.floor_eq_iff]
  constructor <;> norm_num

theorem round6_zero : round6 (0 : ℝ) = 0 := by
  rw [round6, Int.floor_eq_iff]
  constructor <;> norm_num

theorem fmt6_half : fmt6 ((1 : ℝ)/2) = "0.500000" := by
  rw [fmt6, round6_half]
  decide

theorem fmt6_zero : fmt6 (0 : ℝ) = "0.000000" := by
  rw [fmt6, round6_zero]
  decide

theorem exRow0 : phylipRowValues (completeOGMatrix 2 exM0).1
    (scale11 (completeOGMatrix 2 exM0).2) 2 0 = "0.500000 0.000000" := by
  rw [phylipRowValues, show List.range 2 = [0, 1] from rfl, List.map_cons, List.map_cons,
    List.map_nil, exMsnd, exScale, exM_00, exM_01, pv_half, pv_zero, fmtXR, fmtXR,
    fmt6_half, fmt6_zero]
  decide

theorem exRow1 : phylipRowValues (completeOGMatrix 2 exM0).1
    (scale11 (completeOGMatrix 2 exM0).2) 2 1 = "0.000000 0.500000" := by
  rw [phylipRowValues, show List.range 2 = [0, 1] from rfl, List.map_cons, List.map_cons,
    List.map_nil, exMsnd, exScale, exM_10, exM_11, pv_zero, pv_half, fmtXR, fmtXR,
    fmt6_zero, fmt6_half]
  decide

def zeroProv : ℕ → ℕ → SpMat := fun _ _ => ⟨1, 1, fun _ _ => 0⟩

theorem zMaxes : combinedMaxes (workerBs exSpecies zeroProv 0) 0 = 0 := by
  have h1 : lilRowMax (zeroProv 0 0) 0 = 0 := by
    simp [lilRowMax, show rowData (zeroProv 0 0) 0 = [] by decide]
  have h2 : lilRowMax (zeroProv 0 1) 0 = 0 := by
    simp [lilRowMax, show rowData (zeroProv 0 1) 0 = [] by decide]
  simp [combinedMaxes, workerBs, exSpecies, h1, h2, max_def]

theorem zMins : combinedMins (workerBs exSpecies zeroProv 0) 0 = 9e99 := by
  have h1 : lilRowMin (zeroProv 0 0) 0 = 9e99 := by
    simp [lilRowMin, show rowData (zeroProv 0 0) 0 = [] by decide]
  have h2 : lilRowMin (zeroProv 0 1) 0 = 9e99 := by
    simp [lilRowMin, show rowData (zeroProv 0 1) 0 = [] by decide]
  simp [combinedMins, workerBs, exSpecies, h1, h2, min_def]

theorem zMinv : maxesInvOf (workerBs exSpecies zeroProv 0) 0 = XQ.top := by
  rw [maxesInvOf, zMaxes, if_pos rfl]

theorem zWrites_struct : workerWrites exSpecies zeroProv exOg 0 =
    [((0, 0), scatterVal (zeroProv 0 0) (combinedMins (workerBs exSpecies zeroProv 0))
        (maxesInvOf (workerBs exSpecies zeroProv 0)) ⟨0, 0⟩ ⟨0, 0⟩),
     ((0, 1), scatterVal (zeroProv 0 1) (combinedMins (workerBs exSpecies zeroProv 0))
        (maxesInvOf (workerBs exSpecies zeroProv 0)) ⟨0, 0⟩ ⟨1, 0⟩)] := rfl

theorem zVal : scatterVal (zeroProv 0 1) (combinedMins (workerBs exSpecies zeroProv 0))
    (maxesInvOf (workerBs exSpecies zeroProv 0)) ⟨0, 0⟩ ⟨1, 0⟩ = XQ.top := by
  rw [scatterVal, zMins, zMinv, xqMul]
  rw [if_pos]
  norm_num [zeroProv, max_def]

theorem zWrites : workerWrites exSpecies zeroProv exOg 0 =
    [((0, 0), scatterVal (zeroProv 0 0) (combinedMins (workerBs exSpecies zeroProv 0))
        (maxesInvOf (workerBs exSpecies zeroProv 0)) ⟨0, 0⟩ ⟨0, 0⟩),
     ((0, 1), XQ.top)] := by
  rw [zWrites_struct, zVal]

def selfProv : ℕ → ℕ → SpMat := fun a b =>
  if a = 0 ∧ b = 0 then ⟨1, 1, fun i j => if i = 0 ∧ j = 0 then 100 else 0⟩
  else exProv a b

theorem sMaxes : combinedMaxes (workerBs exSpecies selfProv 0) 0 = 100 := by
  have h1 : lilRowMax (selfProv 0 0) 0 = 100 := by
    simp [lilRowMax, show rowData (selfProv 0 0) 0 = [100] by decide]
  have h2 : lilRowMax (selfProv 0 1) 0 = 10 := by
    simp [lilRowMax, show rowData (selfProv 0 1) 0 = [10] by decide]
  simp [combinedMaxes, workerBs, exSpecies, h1, h2, max_def]
  norm_num

theorem sMins : combinedMins (workerBs exSpecies selfProv 0) 0 = 10 := by
  have h1 : lilRowMin (selfProv 0 0) 0 = 100 := by
    simp [lilRowMin, show rowData (selfProv 0 0) 0 = [100] by decide]
  have h2 : lilRowMin (selfProv 0 1) 0 = 10 := by
    simp [lilRowMin, show rowData (selfProv 0 1) 0 = [10] by decide]
  simp [combinedMins, workerBs, exSpecies, h1, h2, min_def]
  norm_num

theorem sMinv : maxesInvOf (workerBs exSpecies selfProv 0) 0 = XQ.fin (1/100) := by
  rw [maxesInvOf, sMaxes]
  norm_num

theorem sWrites : workerWrites exSpecies selfProv exOg 0 =
    [((0, 0), XQ.fin (1/2)), ((0, 1), XQ.fin (1/20))] := by
  have hstruct : workerWrites exSpecies selfProv exOg 0 =
      [((0, 0), scatterVal (selfProv 0 0) (combinedMins (workerBs exSpecies selfProv 0))
          (maxesInvOf (workerBs exSpecies selfProv 0)) ⟨0, 0⟩ ⟨0, 0⟩),
       ((0, 1), scatterVal (selfProv 0 1) (combinedMins (workerBs exSpecies selfProv 0))
          (maxesInvOf (workerBs exSpecies selfProv 0)) ⟨0, 0⟩ ⟨1, 0⟩)] := rfl
  rw [hstruct]
  have h1 : scatterVal (selfProv 0 0) (combinedMins (workerBs exSpecies selfProv 0))
      (maxesInvOf (workerBs exSpecies selfProv 0)) ⟨0, 0⟩ ⟨0, 0⟩ = XQ.fin (1/2) := by
    rw [scatterVal, sMins, sMinv]
    norm_num [selfProv, xqMul, max_def]
  have h2 : scatterVal (selfProv 0 1) (combinedMins (workerBs exSpecies selfProv 0))
      (maxesInvOf (workerBs exSpecies selfProv 0)) ⟨0, 0⟩ ⟨1, 0⟩ = XQ.fin (1/20) := by
    rw [scatterVal, sMins, sMinv]
    norm_num [selfProv, exProv, xqMul, max_def]
  rw [h1, h2]

/-- A sorted orthogroup list: one orthogroup of four genes, then one of one. -/
def exOgs4 : List (List Seq) :=
  [[⟨0, 0⟩, ⟨0, 1⟩, ⟨1, 0⟩, ⟨1, 1⟩], [⟨0, 2⟩]]

/-! ## The claims -/

/-- C1: write-partition non-overlap.  For two units of work whose assigned
species differ, the sets of orthogroup-matrix cells they write are disjoint;
and (given every gene's species is in `speciesToUse`) a cell `(i, j)` is
written by the unit for species `s` exactly when gene `i` of the orthogroup
belongs to `s`. -/
theorem C1_write_partition (speciesToUse : List ℕ) (prov : ℕ → ℕ → SpMat) (og : List Seq)
    (hall : ∀ g ∈ og, g.iSp ∈ speciesToUse)
    (ii1 ii2 : ℕ) (h1 : ii1 < speciesToUse.length) (h2 : ii2 < speciesToUse.length)
    (hne : speciesToUse.getD ii1 0 ≠ speciesToUse.getD ii2 0) :
    (∀ c : ℕ × ℕ,
      ¬(writesCell speciesToUse prov og ii1 c ∧ writesCell speciesToUse prov og ii2 c)) ∧
    (∀ iiSp, iiSp < speciesToUse.length → ∀ i j, i < og.length → j < og.length →
      (writesCell speciesToUse prov og iiSp (i, j) ↔
        (og.getD i ⟨0, 0⟩).iSp = speciesToUse.getD iiSp 0)) := by
  constructor
  · rintro c ⟨⟨w1, hw1, hc1⟩, ⟨w2, hw2, hc2⟩⟩
    rw [mem_workerWrites _ _ _ _ h1] at hw1
    rw [mem_workerWrites _ _ _ _ h2] at hw2
    obtain ⟨-, -, g1, -, hg1, hsp1, -⟩ := hw1
    obtain ⟨-, -, g2, -, hg2, hsp2, -⟩ := hw2
    rw [hc1] at hg1
    rw [hc2] at hg2
    rw [hg1] at hg2
    injection hg2 with hg
    exact hne (hsp1 ▸ hg ▸ hsp2)
  · intro iiSp hii i j hi hj
    constructor
    · rintro ⟨w, hw, hc⟩
      rw [mem_workerWrites _ _ _ _ hii] at hw
      obtain ⟨-, -, gi, -, hgi, hsp, -⟩ := hw
      rw [hc] at hgi
      simp only [List.getElem?_eq_getElem hi, Option.some.injEq] at hgi
      rw [getDlt _ _ _ hi]
      rw [← hgi] at hsp
      exact hsp
    · intro hsp
      set gi := og[i] with hgi
      set gj := og[j] with hgj
      have hmem : gj ∈ og := List.getElem_mem hj
      obtain ⟨jjSp, hjjlt, hjjeq⟩ := List.mem_iff_getElem.mp (hall gj hmem)
      refine ⟨((i, j), scatterVal
          ((workerBs speciesToUse prov (speciesToUse.getD iiSp 0)).getD jjSp ⟨0, 0, fun _ _ => 0⟩)
          (combinedMins (workerBs speciesToUse prov (speciesToUse.getD iiSp 0)))
          (maxesInvOf (workerBs speciesToUse prov (speciesToUse.getD iiSp 0))) gi gj), ?_, rfl⟩
      rw [mem_workerWrites _ _ _ _ hii]
      refine ⟨jjSp, hjjlt, gi, gj, ?_, ?_, ?_, ?_, rfl⟩
      · simp [List.getElem?_eq_getElem hi]
      · rw [getDlt _ _ _ hi] at hsp
        exact hsp
      · simp [List.getElem?_eq_getElem hj]
      · rw [getDlt _ _ _ hjjlt, hjjeq]

/-- C1 witness: the two-species example instantiates the theorem. -/
theorem C1_write_partition_witness :
    (∀ g ∈ exOg, g.iSp ∈ exSpecies) ∧ 0 < exSpecies.length ∧ 1 < exSpecies.length ∧
    exSpecies.getD 0 0 ≠ exSpecies.getD 1 0 ∧
    ((∀ c : ℕ × ℕ,
      ¬(writesCell exSpecies exProv exOg 0 c ∧ writesCell exSpecies exProv exOg 1 c)) ∧
    (∀ iiSp, iiSp < exSpecies.length → ∀ i j, i < exOg.length → j < exOg.length →
      (writesCell exSpecies exProv exOg iiSp (i, j) ↔
        (exOg.getD i ⟨0, 0⟩).iSp = exSpecies.getD iiSp 0))) :=
  ⟨by decide, by decide, by decide, by decide,
    C1_write_partition exSpecies exProv exOg (by decide) 0 1 (by decide) (by decide) (by decide)⟩

/-- C2: after the in-place transform loop of `CompleteAndWriteOGMatrices`, the
matrix is symmetric on its `n × n` index square, and for `j < i` both cells
`(i, j)` and `(j, i)` hold `-ln(r_ij + r_ji)` computed from the two raw
scatter-phase values as they were before either cell was overwritten. -/
theorem C2_transform_symmetric (n : ℕ) (m : ℕ → ℕ → XR) (i j : ℕ)
    (hi : i < n) (hj : j < n) :
    ((completeOGMatrix n m).1 i j = (completeOGMatrix n m).1 j i) ∧
    (j < i →
      (completeOGMatrix n m).1 i j = negLogX (xrAdd (m i j) (m j i)) ∧
      (completeOGMatrix n m).1 j i = negLogX (xrAdd (m i j) (m j i))) := by
  rw [completeOGMatrix_fst]
  have hij := foldl_tstep_closed (triPairs n) (triPairs_offdiag n) (triPairs_nodup n) m i j
  have hji := foldl_tstep_closed (triPairs n) (triPairs_offdiag n) (triPairs_nodup n) m j i
  rcases lt_trichotomy i j with h | h | h
  · have c1 : ((i, j) ∈ triPairs n ∨ (j, i) ∈ triPairs n) :=
      Or.inr ((mem_triPairs n j i).mpr ⟨h, hj⟩)
    rw [if_pos c1] at hij
    rw [if_pos (c1.symm)] at hji
    refine ⟨?_, ?_⟩
    · rw [hij, hji, xrAdd_comm]
    · intro hlt
      omega
  · subst h
    have c1 : ¬((i, i) ∈ triPairs n ∨ (i, i) ∈ triPairs n) := by
      rw [or_self, mem_triPairs]
      omega
    rw [if_neg c1] at hij
    exact ⟨by rw [hij], fun hlt => absurd hlt (lt_irrefl i)⟩
  · have c1 : ((i, j) ∈ triPairs n ∨ (j, i) ∈ triPairs n) :=
      Or.inl ((mem_triPairs n i j).mpr ⟨h, hi⟩)
    rw [if_pos c1] at hij
    rw [if_pos c1.symm] at hji
    refine ⟨?_, fun _ => ⟨hij, ?_⟩⟩
    · rw [hij, hji, xrAdd_comm]
    · rw [hji, xrAdd_comm]

/-- C2 witness: instantiated on the example scatter matrix at `(i, j) = (1, 0)`. -/
theorem C2_transform_symmetric_witness :
    1 < 2 ∧ 0 < 2 ∧
    (((completeOGMatrix 2 exM0).1 1 0 = (completeOGMatrix 2 exM0).1 0 1) ∧
    (0 < 1 →
      (completeOGMatrix 2 exM0).1 1 0 = negLogX (xrAdd (exM0 1 0) (exM0 0 1)) ∧
      (completeOGMatrix 2 exM0).1 0 1 = negLogX (xrAdd (exM0 1 0) (exM0 0 1)))) :=
  ⟨by decide, by decide, C2_transform_symmetric 2 exM0 1 0 (by decide) (by decide)⟩

/-- C3 counterexample: with all raw scores zero (which is a nonnegative
configuration), the unit of work for species 0 still writes the cell `(0, 1)`,
and the value written is `+inf` — produced by `0.5*max(0, 9e99) * (1./0.)` —
which is not a finite value in `[0, 1/2]`.  The claim "every scatter-phase
cell value lies in [0, 0.5] given nonnegative raw scores" is therefore false
as stated. -/
theorem C3_counterexample :
    (∀ a b i j, 0 ≤ (zeroProv a b).entry i j) ∧
    ((0, 1), XQ.top) ∈ workerWrites exSpecies zeroProv exOg 0 ∧
    (∀ q : ℚ, ¬(XQ.top = XQ.fin q ∧ 0 ≤ q ∧ q ≤ 1 / 2)) := by
  refine ⟨fun a b i j => le_refl 0, ?_, ?_⟩
  · rw [zWrites]
    exact List.mem_cons_of_mem _ (List.mem_cons_self _ _)
  · rintro q ⟨h, -⟩
    exact XQ.noConfusion h

/-- C3 (amended): given nonnegative raw scores, in-range sequence indices and
a POSITIVE combined row maximum for every gene of the orthogroup, the value
written into any cell `(i, j)` equals
`0.5 * max(rawScore(g, g'), row-min of g) / row-max of g` where `g` and `g'`
are precisely the genes at positions `i` and `j` of the orthogroup and the raw
score is read from the matrix of the row species against the column gene's
species — and the value lies in `[0, 1/2]`. -/
theorem C3_scatter_bounded (speciesToUse : List ℕ) (prov : ℕ → ℕ → SpMat)
    (og : List Seq) (iiSp : ℕ) (hii : iiSp < speciesToUse.length)
    (hnn : ∀ a b i j, 0 ≤ (prov a b).entry i j)
    (hcols : ∀ g ∈ og, ∀ a b, g.iSeq < (prov a b).cols)
    (hpos : ∀ g ∈ og,
      0 < combinedMaxes (workerBs speciesToUse prov (speciesToUse.getD iiSp 0)) g.iSeq) :
    ∀ w ∈ workerWrites speciesToUse prov og iiSp,
      ∃ gi gj : Seq,
        og[w.1.1]? = some gi ∧ og[w.1.2]? = some gj ∧
        ∃ jjSp, jjSp < speciesToUse.length ∧ gj.iSp = speciesToUse.getD jjSp 0 ∧
          w.2 = XQ.fin ((0.5 : ℚ) *
              max ((prov (speciesToUse.getD iiSp 0) (speciesToUse.getD jjSp 0)).entry
                  gi.iSeq gj.iSeq)
                (combinedMins (workerBs speciesToUse prov (speciesToUse.getD iiSp 0)) gi.iSeq) /
            combinedMaxes (workerBs speciesToUse prov (speciesToUse.getD iiSp 0)) gi.iSeq) ∧
          ∃ q : ℚ, w.2 = XQ.fin q ∧ 0 ≤ q ∧ q ≤ 1 / 2 := by
  intro w hw
  rw [mem_workerWrites _ _ _ _ hii] at hw
  obtain ⟨jjSp, hjj, gi, gj, hgi, -, hgj, hgjsp, hval⟩ := hw
  have hgim : gi ∈ og := mem_of_getElem?_some hgi
  have hgjm : gj ∈ og := mem_of_getElem?_some hgj
  have hBlen : jjSp < (workerBs speciesToUse prov (speciesToUse.getD iiSp 0)).length := by
    rw [workerBs, List.length_map]
    exact hjj
  have hBeq : (workerBs speciesToUse prov (speciesToUse.getD iiSp 0)).getD jjSp
      ⟨0, 0, fun _ _ => 0⟩ = prov (speciesToUse.getD iiSp 0) (speciesToUse.getD jjSp 0) := by
    rw [getDlt _ _ _ hBlen]
    simp only [workerBs, List.getElem_map]
    rw [getDlt _ _ _ hjj]
  have hBin : prov (speciesToUse.getD iiSp 0) (speciesToUse.getD jjSp 0) ∈
      workerBs speciesToUse prov (speciesToUse.getD iiSp 0) := by
    rw [← hBeq, getDlt _ _ _ hBlen]
    exact List.getElem_mem hBlen
  have hcol : gj.iSeq < (prov (speciesToUse.getD iiSp 0) (speciesToUse.getD jjSp 0)).cols :=
    hcols gj hgjm _ _
  have hbound := scatterVal_formula_bound
    (workerBs speciesToUse prov (speciesToUse.getD iiSp 0)) _ hBin
    (workerBs_nonneg speciesToUse prov _ hnn) gi gj hcol (hpos gi hgim)
  rw [hBeq] at hval
  refine ⟨gi, gj, hgi, hgj, jjSp, hjj, hgjsp, ?_, ?_⟩
  · rw [hval, hbound.1]
  · exact ⟨_, by rw [hval, hbound.1], hbound.2.1, hbound.2.2⟩

/-- C3 witness: the two-species example (all row maxima `10 > 0`). -/
theorem C3_scatter_bounded_witness :
    0 < exSpecies.length ∧
    (∀ a b i j, 0 ≤ (exProv a b).entry i j) ∧
    (∀ g ∈ exOg, ∀ a b, g.iSeq < (exProv a b).cols) ∧
    (∀ g ∈ exOg,
      0 < combinedMaxes (workerBs exSpecies exProv (exSpecies.getD 0 0)) g.iSeq) ∧
    (∀ w ∈ workerWrites exSpecies exProv exOg 0,
      ∃ gi gj : Seq,
        exOg[w.1.1]? = some gi ∧ exOg[w.1.2]? = some gj ∧
        ∃ jjSp, jjSp < exSpecies.length ∧ gj.iSp = exSpecies.getD jjSp 0 ∧
          w.2 = XQ.fin ((0.5 : ℚ) *
              max ((exProv (exSpecies.getD 0 0) (exSpecies.getD jjSp 0)).entry
                  gi.iSeq gj.iSeq)
                (combinedMins (workerBs exSpecies exProv (exSpecies.getD 0 0)) gi.iSeq) /
            combinedMaxes (workerBs exSpecies exProv (exSpecies.getD 0 0)) gi.iSeq) ∧
          ∃ q : ℚ, w.2 = XQ.fin q ∧ 0 ≤ q ∧ q ≤ 1 / 2) := by
  have hnn : ∀ a b i j, 0 ≤ (exProv a b).entry i j := by
    intro a b i j
    rw [exProv]
    split
    · exact le_refl 0
    · simp only
      split
      · norm_num
      · exact le_refl 0
  have hcols : ∀ g ∈ exOg, ∀ a b, g.iSeq < (exProv a b).cols := by
    intro g hg a b
    have hc : (exProv a b).cols = 1 := by
      rw [exProv]
      split <;> rfl
    rw [hc]
    simp only [exOg, List.mem_cons, List.not_mem_nil, or_false] at hg
    rcases hg with rfl | rfl <;> decide
  have hpos : ∀ g ∈ exOg,
      0 < combinedMaxes (workerBs exSpecies exProv (exSpecies.getD 0 0)) g.iSeq := by
    intro g hg
    simp only [exOg, List.mem_cons, List.not_mem_nil, or_false] at hg
    rcases hg with rfl | rfl <;>
      · show 0 < combinedMaxes (workerBs exSpecies exProv 0) 0
        rw [exMaxes0]
        norm_num
  exact ⟨by decide, hnn, hcols, hpos,
    C3_scatter_bounded exSpecies exProv exOg 0 (by decide) hnn hcols hpos⟩

/-- C4 counterexample: for a gene whose row has no nonzero score in any
matrix (row-max `0`, row-min sentinel `9e99`), the cells with that gene as
row gene do NOT remain unset: the unit of work still writes them, with the
IEEE value `+inf` obtained from multiplying by `1./0.`.  The claim that such
cells "are not written" is therefore false. -/
theorem C4_counterexample :
    combinedMaxes (workerBs exSpecies zeroProv 0) 0 = 0 ∧
    combinedMins (workerBs exSpecies zeroProv 0) 0 = 9e99 ∧
    writesCell exSpecies zeroProv exOg 0 (0, 1) ∧
    ((0, 1), XQ.top) ∈ workerWrites exSpecies zeroProv exOg 0 ∧
    XQ.top ≠ XQ.fin 0 := by
  have hmem : ((0, 1), XQ.top) ∈ workerWrites exSpecies zeroProv exOg 0 := by
    rw [zWrites]
    exact List.mem_cons_of_mem _ (List.mem_cons_self _ _)
  exact ⟨zMaxes, zMins, ⟨((0, 1), XQ.top), hmem, rfl⟩, hmem,
    fun h => XQ.noConfusion h⟩

/-- C4 (amended): division by a zero row-maximum is not guarded.  Whenever a
written cell's row gene has combined row-max `0` (given nonnegative scores),
its combined row-min is the sentinel `9e99` and the value actually written is
`+inf`. -/
theorem C4_zero_rowmax_inf (speciesToUse : List ℕ) (prov : ℕ → ℕ → SpMat)
    (og : List Seq) (iiSp : ℕ) (hii : iiSp < speciesToUse.length)
    (hnn : ∀ a b i j, 0 ≤ (prov a b).entry i j) :
    ∀ w ∈ workerWrites speciesToUse prov og iiSp, ∀ gi : Seq,
      og[w.1.1]? = some gi →
      combinedMaxes (workerBs speciesToUse prov (speciesToUse.getD iiSp 0)) gi.iSeq = 0 →
      combinedMins (workerBs speciesToUse prov (speciesToUse.getD iiSp 0)) gi.iSeq = 9e99 ∧
      w.2 = XQ.top := by
  intro w hw gi hgi hz
  rw [mem_workerWrites _ _ _ _ hii] at hw
  obtain ⟨jjSp, hjj, gi', gj, hgi', -, hgj, -, hval⟩ := hw
  have heq : gi' = gi := Option.some.inj (hgi'.symm.trans hgi)
  subst heq
  have hBlen : jjSp < (workerBs speciesToUse prov (speciesToUse.getD iiSp 0)).length := by
    rw [workerBs, List.length_map]
    exact hjj
  have hBin : (workerBs speciesToUse prov (speciesToUse.getD iiSp 0)).getD jjSp
      ⟨0, 0, fun _ _ => 0⟩ ∈ workerBs speciesToUse prov (speciesToUse.getD iiSp 0) := by
    rw [getDlt _ _ _ hBlen]
    exact List.getElem_mem hBlen
  constructor
  · exact combinedMins_sentinel _ _ (workerBs_nonneg _ _ _ hnn) hz
  · rw [hval]
    exact scatterVal_inf _ _ hBin (workerBs_nonneg _ _ _ hnn) gi' gj hz

/-- C4 witness: the all-zero-score example instantiates the theorem. -/
theorem C4_zero_rowmax_inf_witness :
    0 < exSpecies.length ∧
    (∀ a b i j, 0 ≤ (zeroProv a b).entry i j) ∧
    (∀ w ∈ workerWrites exSpecies zeroProv exOg 0, ∀ gi : Seq,
      exOg[w.1.1]? = some gi →
      combinedMaxes (workerBs exSpecies zeroProv (exSpecies.getD 0 0)) gi.iSeq = 0 →
      combinedMins (workerBs exSpecies zeroProv (exSpecies.getD 0 0)) gi.iSeq = 9e99 ∧
      w.2 = XQ.top) :=
  ⟨by decide, fun a b i j => le_refl 0,
    C4_zero_rowmax_inf exSpecies zeroProv exOg 0 (by decide) (fun a b i j => le_refl 0)⟩

/-- C5: `WritePhylipMatrix` applies, per value, first the sentinel
substitution (any value not greater than `-9e99` becomes `1.1 * max_og`),
then the sliver substitution (any resulting value strictly between `0` and
`1e-6` becomes exactly `1e-6`), then six-decimal fixed-point formatting; so
— provided the scaled `max_og` is itself above the sentinel — no written
value is `≤ -9e99` and no written value lies strictly between `0` and
`1e-6`. -/
theorem C5_write_phylip (m : ℕ → ℕ → XR) (names : ℕ → String) (n : ℕ) (maxog : XR)
    (h : xrLt (XR.fin (-9e99)) (scale11 maxog)) :
    (∀ v : XR,
      (¬xrLt (XR.fin (-9e99)) v → substSentinel (scale11 maxog) v = scale11 maxog) ∧
      (xrLt (XR.fin (-9e99)) v → substSentinel (scale11 maxog) v = v) ∧
      ((xrLt (XR.fin 0) (substSentinel (scale11 maxog) v) ∧
          xrLt (substSentinel (scale11 maxog) v) (XR.fin (1e-6 : ℝ))) →
        phylipValue (scale11 maxog) v = XR.fin (1e-6 : ℝ)) ∧
      xrLt (XR.fin (-9e99)) (phylipValue (scale11 maxog) v) ∧
      ¬(xrLt (XR.fin 0) (phylipValue (scale11 maxog) v) ∧
        xrLt (phylipValue (scale11 maxog) v) (XR.fin (1e-6 : ℝ)))) ∧
    (writePhylipMatrix m names n maxog).getD 0 "" = toString n ∧
    (∀ i, i < n → (writePhylipMatrix m names n maxog).getD (i + 1) "" =
      names i ++ " " ++ String.intercalate " "
        ((List.range n).map (fun j => fmtXR (phylipValue (scale11 maxog) (m i j))))) := by
  refine ⟨fun v => ⟨?_, ?_, ?_, ?_, ?_⟩, ?_, ?_⟩
  · intro hv
    cases v with
    | bot => rfl
    | top => exact absurd (by simp [xrLt]) hv
    | fin r =>
      rw [substSentinel, if_neg]
      intro hr
      exact hv hr
  · intro hv
    cases v with
    | bot => exact absurd hv (by simp [xrLt])
    | top => rfl
    | fin r => rw [substSentinel, if_pos (show (-9e99 : ℝ) < r from hv)]
  · intro hsmall
    rw [phylipValue]
    rcases hs : substSentinel (scale11 maxog) v with _ | r | _
    · rw [hs] at hsmall
      exact absurd hsmall.1 (by simp [xrLt])
    · rw [hs] at hsmall
      simp only [xrLt] at hsmall
      rw [substSliver, if_pos hsmall]
    · rw [hs] at hsmall
      exact absurd hsmall.2 (by simp [xrLt])
  · rw [phylipValue]
    apply substSliver_keeps_gt
    cases v with
    | bot => exact h
    | top => simp [substSentinel, xrLt]
    | fin r =>
      rw [substSentinel]
      split
      · simpa [xrLt]
      · exact h
  · exact substSliver_not_small _
  · rfl
  · intro i hi
    rw [writePhylipMatrix, List.getD_cons_succ, List.getD_eq_getElem?_getD,
      List.getElem?_map, List.getElem?_range hi]
    rfl

/-- C5 witness: instantiated with a `1 × 1` matrix and `max_og = 0`. -/
theorem C5_write_phylip_witness :
    xrLt (XR.fin (-9e99)) (scale11 (XR.fin 0)) ∧
    ((∀ v : XR,
      (¬xrLt (XR.fin (-9e99)) v →
        substSentinel (scale11 (XR.fin 0)) v = scale11 (XR.fin 0)) ∧
      (xrLt (XR.fin (-9e99)) v → substSentinel (scale11 (XR.fin 0)) v = v) ∧
      ((xrLt (XR.fin 0) (substSentinel (scale11 (XR.fin 0)) v) ∧
          xrLt (substSentinel (scale11 (XR.fin 0)) v) (XR.fin (1e-6 : ℝ))) →
        phylipValue (scale11 (XR.fin 0)) v = XR.fin (1e-6 : ℝ)) ∧
      xrLt (XR.fin (-9e99)) (phylipValue (scale11 (XR.fin 0)) v) ∧
      ¬(xrLt (XR.fin 0) (phylipValue (scale11 (XR.fin 0)) v) ∧
        xrLt (phylipValue (scale11 (XR.fin 0)) v) (XR.fin (1e-6 : ℝ)))) ∧
    (writePhylipMatrix (fun _ _ => XR.fin 0) (fun _ => "x") 1 (XR.fin 0)).getD 0 "" =
      toString 1 ∧
    (∀ i, i < 1 →
      (writePhylipMatrix (fun _ _ => XR.fin 0) (fun _ => "x") 1 (XR.fin 0)).getD (i + 1) "" =
      (fun _ : ℕ => "x") i ++ " " ++ String.intercalate " "
        ((List.range 1).map (fun j =>
          fmtXR (phylipValue (scale11 (XR.fin 0)) ((fun _ _ : ℕ => XR.fin 0) i j)))))) := by
  have h : xrLt (XR.fin (-9e99)) (scale11 (XR.fin 0)) := by
    rw [scale11]
    show (-9e99 : ℝ) < 1.1 * 0
    norm_num
  exact ⟨h, C5_write_phylip (fun _ _ => XR.fin 0) (fun _ => "x") 1 (XR.fin 0) h⟩

/-- C6: for the `k`-th species pair, the sample list built by
`SpeciesTreeDistances` is exactly the per-orthogroup minima of cross-species
gene-pair distances (orthogroups with no such pair contribute nothing), the
aggregated matrix entry (in both orientations) is the `np.median` of that
sample list, and the median has standard even-length interpolation:
`[0.1, 0.3, 0.5, 0.9]` gives `0.4`. -/
theorem C6_species_median (stu : List ℕ) (hnd : stu.Nodup) (ogs : List (List Seq))
    (ms : List (ℕ → ℕ → ℚ)) (k : ℕ) (hk : k < (combinations2 stu).length) :
    (speciesTreeDistances stu ogs ms).getD k [] =
      (ogs.zip ms).filterMap (fun om =>
        minCross om.1 om.2 ((combinations2 stu).getD k (0, 0)).1
          ((combinations2 stu).getD k (0, 0)).2) ∧
    speciesMatrix stu (speciesTreeDistances stu ogs ms)
        (stu.indexOf ((combinations2 stu).getD k (0, 0)).1)
        (stu.indexOf ((combinations2 stu).getD k (0, 0)).2) =
      median ((speciesTreeDistances stu ogs ms).getD k []) ∧
    speciesMatrix stu (speciesTreeDistances stu ogs ms)
        (stu.indexOf ((combinations2 stu).getD k (0, 0)).2)
        (stu.indexOf ((combinations2 stu).getD k (0, 0)).1) =
      median ((speciesTreeDistances stu ogs ms).getD k []) ∧
    median [0.1, 0.3, 0.5, 0.9] = 0.4 := by
  have hlen : (speciesTreeDistances stu ogs ms).length = (combinations2 stu).length :=
    stD_length stu ogs ms
  have hkD : k < (speciesTreeDistances stu ogs ms).length := by rw [hlen]; exact hk
  have hkz : k < ((combinations2 stu).zip (speciesTreeDistances stu ogs ms)).length := by
    rw [List.length_zip, hlen, min_self]; exact hk
  have hmem : ((combinations2 stu)[k], (speciesTreeDistances stu ogs ms)[k]) ∈
      (combinations2 stu).zip (speciesTreeDistances stu ogs ms) := by
    have h1 := List.getElem_mem hkz
    rw [List.getElem_zip] at h1
    exact h1
  have hlast := smWrite_last stu ((combinations2 stu).zip (speciesTreeDistances stu ogs ms))
    (pairwise_zip_left (pairNC stu) (combinations2 stu) (speciesTreeDistances stu ogs ms)
      (comb2_pairwiseNC stu hnd))
    ((combinations2 stu)[k], (speciesTreeDistances stu ogs ms)[k]) hmem (fun _ _ => 0)
  have hgd1 : (combinations2 stu).getD k (0, 0) = (combinations2 stu)[k] := getDlt _ _ _ hk
  have hgd2 : (speciesTreeDistances stu ogs ms).getD k [] =
      (speciesTreeDistances stu ogs ms)[k] := getDlt _ _ _ hkD
  refine ⟨stD_getD stu ogs ms k hk, ?_, ?_, median_example⟩
  · rw [hgd1, hgd2, speciesMatrix]
    exact hlast.1
  · rw [hgd1, hgd2, speciesMatrix]
    exact hlast.2

/-- C6 witness: species `[0, 1]`, one orthogroup, pair index `0`. -/
theorem C6_species_median_witness :
    ([0, 1] : List ℕ).Nodup ∧ 0 < (combinations2 [0, 1]).length ∧
    ((speciesTreeDistances [0, 1] [exOg] [fun _ _ => (7 : ℚ)]).getD 0 [] =
      ([exOg].zip [fun _ _ => (7 : ℚ)]).filterMap (fun om =>
        minCross om.1 om.2 ((combinations2 [0, 1]).getD 0 (0, 0)).1
          ((combinations2 [0, 1]).getD 0 (0, 0)).2) ∧
    speciesMatrix [0, 1] (speciesTreeDistances [0, 1] [exOg] [fun _ _ => (7 : ℚ)])
        (([0, 1] : List ℕ).indexOf ((combinations2 [0, 1]).getD 0 (0, 0)).1)
        (([0, 1] : List ℕ).indexOf ((combinations2 [0, 1]).getD 0 (0, 0)).2) =
      median ((speciesTreeDistances [0, 1] [exOg] [fun _ _ => (7 : ℚ)]).getD 0 []) ∧
    speciesMatrix [0, 1] (speciesTreeDistances [0, 1] [exOg] [fun _ _ => (7 : ℚ)])
        (([0, 1] : List ℕ).indexOf ((combinations2 [0, 1]).getD 0 (0, 0)).2)
        (([0, 1] : List ℕ).indexOf ((combinations2 [0, 1]).getD 0 (0, 0)).1) =
      median ((speciesTreeDistances [0, 1] [exOg] [fun _ _ => (7 : ℚ)]).getD 0 []) ∧
    median [0.1, 0.3, 0.5, 0.9] = 0.4) :=
  ⟨by decide, by decide,
    C6_species_median [0, 1] (by decide) [exOg] [fun _ _ => (7 : ℚ)] 0 (by decide)⟩

/-- C7 counterexample: in the two-species, one-gene-each example with raw
score `10` and row min = row max = `10` for both rows, the first serialized
row's two values are `"0.500000 0.000000"`, not `"0.000000 0.000000"`: the
diagonal cell keeps its untransformed scatter value `0.5` because the
transform loop only visits `j < i`.  The claim's serialized-row prediction is
therefore false. -/
theorem C7_counterexample :
    phylipRowValues (completeOGMatrix 2 exM0).1 (scale11 (completeOGMatrix 2 exM0).2) 2 0 =
      "0.500000 0.000000" ∧
    "0.500000 0.000000" ≠ "0.000000 0.000000" :=
  ⟨exRow0, by decide⟩

/-- C7 (amended): in the example, both row extremes are `10`, the scatter
phase writes `0.5` into every cell (including the diagonal), the transform
makes the off-diagonal cells `-ln(0.5 + 0.5) = 0` and leaves the diagonal at
`0.5`, and the serialized rows are `"0.500000 0.000000"` and
`"0.000000 0.500000"`. -/
theorem C7_end_to_end :
    combinedMins (workerBs exSpecies exProv 0) 0 = 10 ∧
    combinedMaxes (workerBs exSpecies exProv 0) 0 = 10 ∧
    combinedMins (workerBs exSpecies exProv 1) 0 = 10 ∧
    combinedMaxes (workerBs exSpecies exProv 1) 0 = 10 ∧
    scatterMatrix exSpecies exProv exOg 0 1 = XQ.fin (1 / 2) ∧
    scatterMatrix exSpecies exProv exOg 1 0 = XQ.fin (1 / 2) ∧
    (completeOGMatrix 2 exM0).1 0 1 = XR.fin 0 ∧
    (completeOGMatrix 2 exM0).1 1 0 = XR.fin 0 ∧
    (completeOGMatrix 2 exM0).1 0 0 = XR.fin ((1 : ℝ) / 2) ∧
    (completeOGMatrix 2 exM0).1 1 1 = XR.fin ((1 : ℝ) / 2) ∧
    phylipRowValues (completeOGMatrix 2 exM0).1 (scale11 (completeOGMatrix 2 exM0).2) 2 0 =
      "0.500000 0.000000" ∧
    phylipRowValues (completeOGMatrix 2 exM0).1 (scale11 (completeOGMatrix 2 exM0).2) 2 1 =
      "0.000000 0.500000" :=
  ⟨exMins0, exMaxes0, exMins1, exMaxes1,
    exScatter_eval 0 1 (by decide) (by decide), exScatter_eval 1 0 (by decide) (by decide),
    exM_01, exM_10, exM_00, exM_11, exRow0, exRow1⟩

/-- C8 counterexample: two providers that differ only in the self-comparison
matrix of species 0 give different row maxima (`100` vs `10`) and different
written cell values (`1/20` vs `1/2`) for the unit of work of species 0 — the
self-comparison matrix does contribute to the row extremes and to the
scattered values, so the claim that it "contributes nothing" is false. -/
theorem C8_counterexample :
    (∀ a b, ¬(a = 0 ∧ b = 0) → selfProv a b = exProv a b) ∧
    combinedMaxes (workerBs exSpecies selfProv 0) 0 = 100 ∧
    combinedMaxes (workerBs exSpecies exProv 0) 0 = 10 ∧
    (100 : ℚ) ≠ 10 ∧
    ((0, 1), XQ.fin (1 / 20)) ∈ workerWrites exSpecies selfProv exOg 0 ∧
    ((0, 1), XQ.fin (1 / 2)) ∈ workerWrites exSpecies exProv exOg 0 ∧
    XQ.fin ((1 : ℚ) / 20) ≠ XQ.fin (1 / 2) := by
  refine ⟨?_, sMaxes, exMaxes0, by norm_num, ?_, ?_, ?_⟩
  · intro a b h
    rw [selfProv, if_neg h]
  · rw [sWrites]
    exact List.mem_cons_of_mem _ (List.mem_cons_self _ _)
  · rw [exWrites0]
    exact List.mem_cons_of_mem _ (List.mem_cons_self _ _)
  · intro h
    have := XQ.fin.inj h
    norm_num at this

/-- C8 (amended): the worker's matrix list ranges over ALL of
`speciesToUse`, so it contains the self-comparison matrix; the per-row
extremes bound every matrix of the list (self included), and a nonzero
combined maximum is attained by some matrix of the list. -/
theorem C8_self_included (speciesToUse : List ℕ) (prov : ℕ → ℕ → SpMat) (iiSp : ℕ)
    (hii : iiSp < speciesToUse.length) :
    prov (speciesToUse.getD iiSp 0) (speciesToUse.getD iiSp 0) ∈
      workerBs speciesToUse prov (speciesToUse.getD iiSp 0) ∧
    (∀ B ∈ workerBs speciesToUse prov (speciesToUse.getD iiSp 0), ∀ g,
      combinedMins (workerBs speciesToUse prov (speciesToUse.getD iiSp 0)) g ≤
          lilRowMin B g ∧
      lilRowMax B g ≤
        combinedMaxes (workerBs speciesToUse prov (speciesToUse.getD iiSp 0)) g) ∧
    (∀ g, combinedMaxes (workerBs speciesToUse prov (speciesToUse.getD iiSp 0)) g = 0 ∨
      ∃ B ∈ workerBs speciesToUse prov (speciesToUse.getD iiSp 0),
        lilRowMax B g =
          combinedMaxes (workerBs speciesToUse prov (speciesToUse.getD iiSp 0)) g) := by
  refine ⟨?_, ?_, ?_⟩
  · have hmem : speciesToUse.getD iiSp 0 ∈ speciesToUse := by
      rw [getDlt _ _ _ hii]
      exact List.getElem_mem hii
    exact List.mem_map.mpr ⟨speciesToUse.getD iiSp 0, hmem, rfl⟩
  · intro B hB g
    exact ⟨combinedMins_le _ g B hB, le_combinedMaxes _ g B hB⟩
  · intro g
    rw [combinedMaxes_map]
    rcases foldl_max_cases ((workerBs speciesToUse prov (speciesToUse.getD iiSp 0)).map
        (fun B => lilRowMax B g)) 0 with hc | hc
    · exact Or.inl hc
    · obtain ⟨B, hB, hE⟩ := List.mem_map.mp hc
      exact Or.inr ⟨B, hB, hE⟩

/-- C8 witness: the two-species example instantiates the theorem. -/
theorem C8_self_included_witness :
    0 < exSpecies.length ∧
    (exProv (exSpecies.getD 0 0) (exSpecies.getD 0 0) ∈
      workerBs exSpecies exProv (exSpecies.getD 0 0) ∧
    (∀ B ∈ workerBs exSpecies exProv (exSpecies.getD 0 0), ∀ g,
      combinedMins (workerBs exSpecies exProv (exSpecies.getD 0 0)) g ≤ lilRowMin B g ∧
      lilRowMax B g ≤ combinedMaxes (workerBs exSpecies exProv (exSpecies.getD 0 0)) g) ∧
    (∀ g, combinedMaxes (workerBs exSpecies exProv (exSpecies.getD 0 0)) g = 0 ∨
      ∃ B ∈ workerBs exSpecies exProv (exSpecies.getD 0 0),
        lilRowMax B g = combinedMaxes (workerBs exSpecies exProv (exSpecies.getD 0 0)) g)) :=
  ⟨by decide, C8_self_included exSpecies exProv 0 (by decide)⟩

/-- C9 counterexample: on the same matrix value `-1e100` (a sentinel, not
greater than `-9e99`) and `maxFiniteDistance = 0`, `WritePhylipMatrix`'s value
pipeline produces `1.1 * 0` while the inline species-matrix writer of
`PrepareSpeciesTreeCommand` — which performs no sentinel substitution at all —
produces `-1e100`.  The claim that the two writers apply exactly the same
substitutions is therefore false. -/
theorem C9_counterexample :
    phylipValue (scale11 (XR.fin 0)) (XR.fin (-1e100)) = XR.fin ((1.1 : ℝ) * 0) ∧
    speciesWriterValue (XR.fin (-1e100)) = XR.fin (-1e100) ∧
    phylipValue (scale11 (XR.fin 0)) (XR.fin (-1e100)) ≠
      speciesWriterValue (XR.fin (-1e100)) := by
  have h1 : phylipValue (scale11 (XR.fin 0)) (XR.fin (-1e100)) = XR.fin ((1.1 : ℝ) * 0) := by
    rw [phylipValue, scale11, substSentinel, if_neg (by norm_num), substSliver,
      if_neg (by norm_num)]
  have h2 : speciesWriterValue (XR.fin (-1e100)) = XR.fin (-1e100) := by
    rw [speciesWriterValue, substSliver, if_neg (by norm_num)]
  refine ⟨h1, h2, ?_⟩
  rw [h1, h2]
  intro h
  have := XR.fin.inj h
  norm_num at this

/-- C9 (amended): the species-matrix writer applies only the `1e-6` floor
and the same formatting; when every matrix value is strictly above the
`-9e99` sentinel the two writers produce identical rows (for identical
values and labels). -/
theorem C9_rows_agree (m : ℕ → ℕ → XR) (names : ℕ → String) (n : ℕ) (maxog : XR)
    (h : ∀ i j, i < n → j < n → xrLt (XR.fin (-9e99)) (m i j)) :
    ∀ i, i < n → phylipRowLine names m (scale11 maxog) n i = speciesRowLine names m n i := by
  intro i hi
  have hmap : (List.range n).map (fun j => fmtXR (phylipValue (scale11 maxog) (m i j))) =
      (List.range n).map (fun j => fmtXR (speciesWriterValue (m i j))) := by
    refine List.map_congr_left ?_
    intro j hj
    have hmj := h i j hi (List.mem_range.mp hj)
    refine congrArg fmtXR ?_
    rw [phylipValue, speciesWriterValue]
    cases hm : m i j with
    | bot =>
      rw [hm] at hmj
      exact absurd hmj (by simp [xrLt])
    | top => rfl
    | fin r =>
      rw [hm] at hmj
      rw [substSentinel, if_pos (show (-9e99 : ℝ) < r from hmj)]
  rw [phylipRowLine, phylipRowValues, speciesRowLine, hmap]

/-- C9 witness: a `1 × 1` matrix with value `0`. -/
theorem C9_rows_agree_witness :
    (∀ i j, i < 1 → j < 1 →
      xrLt (XR.fin (-9e99)) ((fun _ _ : ℕ => XR.fin 0) i j)) ∧
    (∀ i, i < 1 →
      phylipRowLine (fun _ => "0") (fun _ _ => XR.fin 0) (scale11 (XR.fin 0)) 1 i =
        speciesRowLine (fun _ => "0") (fun _ _ => XR.fin 0) 1 i) := by
  have h : ∀ i j, i < 1 → j < 1 →
      xrLt (XR.fin (-9e99)) ((fun _ _ : ℕ => XR.fin 0) i j) := by
    intro i j hi hj
    show (-9e99 : ℝ) < 0
    norm_num
  exact ⟨h, C9_rows_agree (fun _ _ => XR.fin 0) (fun _ => "0") 1 (XR.fin 0) h⟩

/-- C10: `OGs(qInclAll=True)` returns the whole orthogroup list; with
`qInclAll=False` it returns the whole list when the last orthogroup has at
least 4 genes, and otherwise the prefix ending just before the first
orthogroup with fewer than 4 genes; on a size-sorted (non-increasing) list
every returned orthogroup has at least 4 genes. -/
theorem C10_OGs_prefix (ogs : List (List Seq)) (hne : ogs ≠ [])
    (hsorted : ogs.Pairwise (fun a b => b.length ≤ a.length)) :
    OGsOf ogs true = ogs ∧
    (4 ≤ (ogs.getLast hne).length → OGsOf ogs false = ogs) ∧
    ((ogs.getLast hne).length < 4 →
      OGsOf ogs false = ogs.take (ogs.findIdx (fun og => og.length < 4))) ∧
    (∀ og ∈ OGsOf ogs false, 4 ≤ og.length) := by
  have hlast : ogs.getLastD [] = ogs.getLast hne := by
    rw [List.getLastD_eq_getLast?, List.getLast?_eq_getLast _ hne]
    rfl
  refine ⟨rfl, ?_, ?_, ?_⟩
  · intro h4
    rw [OGsOf, if_neg (by simp), iOgs4, hlast, if_pos h4, List.take_length]
  · intro h4
    rw [OGsOf, if_neg (by simp), iOgs4, hlast, if_neg (by omega)]
  · intro og hog
    rw [OGsOf, if_neg (by simp), iOgs4, hlast] at hog
    by_cases h4 : 4 ≤ (ogs.getLast hne).length
    · rw [if_pos h4, List.take_length] at hog
      calc 4 ≤ (ogs.getLast hne).length := h4
        _ ≤ og.length := by
          have := pairwise_le_getLastD ogs hsorted og hog
          rw [hlast] at this
          exact this
    · rw [if_neg h4] at hog
      have := mem_take_findIdx (fun og => og.length < 4) ogs og hog
      simp only [decide_eq_false_iff_not, not_lt] at this
      exact this

/-- C10 witness: a sorted two-orthogroup list with sizes `4` and `1`. -/
theorem C10_OGs_prefix_witness :
    exOgs4 ≠ [] ∧ exOgs4.Pairwise (fun a b => b.length ≤ a.length) ∧
    (OGsOf exOgs4 true = exOgs4 ∧
    (4 ≤ (exOgs4.getLast (by decide)).length → OGsOf exOgs4 false = exOgs4) ∧
    ((exOgs4.getLast (by decide)).length < 4 →
      OGsOf exOgs4 false = exOgs4.take (exOgs4.findIdx (fun og => og.length < 4))) ∧
    (∀ og ∈ OGsOf exOgs4 false, 4 ≤ og.length)) :=
  ⟨by decide, by decide, C10_OGs_prefix exOgs4 (by decide) (by decide)⟩

end OF
